import Mathlib

/-!  Verification of the wasm_jit core: a shallow embedding of the x86-64
encoder (`src/assembler.rs`), the JIT code generator (`src/compiler.rs`) and
the runtime result handling (`src/runtime.rs`), with theorems checking the
natural-language specification against the code.

Machine integers are modelled as `Int`/`Nat` with explicit two's-complement
reductions.  Rust `Vec`/`VecDeque` become `List` (for the virtual stack the
list head is the deque front; for the label stack the list head is the top,
i.e. the end of the Rust `Vec`).  Pointers into the code buffer become `Nat`
offsets from `p_start`.  Fallible paths (`Result`, and panics such as
`unimplemented!`, `unreachable!`, `expect`, debug-mode integer overflow and
out-of-range indexing) return `Except CompErr`.  -/

/-! ## Two's-complement helpers -/

/-- Rust `as u8` truncation of a signed value (low byte, non-negative). -/
def u8cast (x : Int) : Nat := (x % 256).toNat

/-- The value of `x` reduced modulo 2^32 (Rust `as u32`). -/
def u32cast (x : Int) : Nat := (x % 4294967296).toNat

/-- The value of `x` reduced modulo 2^64 (Rust `as u64`). -/
def u64cast (x : Int) : Nat := (x % 18446744073709551616).toNat

/-- Rust `as i32`: truncate to the low 32 bits, reading them as signed. -/
def asI32 (x : Int) : Int :=
  let m := x % 4294967296
  if m < 2147483648 then m else m - 4294967296

/-- Little-endian bytes of a 32-bit immediate (`i32::to_le_bytes`). -/
def imm32 (x : Int) : List Nat :=
  let m := u32cast x
  [m % 256, m / 256 % 256, m / 65536 % 256, m / 16777216 % 256]

/-- Little-endian bytes of a 64-bit immediate (`i64::to_le_bytes`). -/
def imm64 (x : Int) : List Nat :=
  let m := u64cast x
  [m % 256, m / 256 % 256, m / 65536 % 256, m / 16777216 % 256,
   m / 4294967296 % 256, m / 1099511627776 % 256,
   m / 281474976710656 % 256, m / 72057594037927936 % 256]

/-! ## Registers (`src/assembler.rs`) -/

/-- 64-bit general-purpose registers. -/
inductive Register64
  | Rax | Rcx | Rdx | Rbx | Rsp | Rbp | Rsi | Rdi
  | R8 | R9 | R10 | R11 | R12 | R13 | R14 | R15
  deriving DecidableEq

/-- 32-bit registers. -/
inductive Register32
  | Eax | Ecx | Edx | Ebx | Esp | Ebp | Esi | Edi
  | R8d | R9d | R10d | R11d | R12d | R13d | R14d | R15d
  deriving DecidableEq

/-- 8-bit registers. -/
inductive Register8
  | Al | Cl | Dl | Bl | Ah | Ch | Dh | Bh
  deriving DecidableEq

/-- `RegisterNumber for Register64`. -/
def Register64.number : Register64 → Nat
  | .Rax => 0 | .Rcx => 1 | .Rdx => 2 | .Rbx => 3
  | .Rsp => 4 | .Rbp => 5 | .Rsi => 6 | .Rdi => 7
  | .R8 => 8 | .R9 => 9 | .R10 => 10 | .R11 => 11
  | .R12 => 12 | .R13 => 13 | .R14 => 14 | .R15 => 15

/-- `RegisterNumber for Register32`. -/
def Register32.number : Register32 → Nat
  | .Eax => 0 | .Ecx => 1 | .Edx => 2 | .Ebx => 3
  | .Esp => 4 | .Ebp => 5 | .Esi => 6 | .Edi => 7
  | .R8d => 8 | .R9d => 9 | .R10d => 10 | .R11d => 11
  | .R12d => 12 | .R13d => 13 | .R14d => 14 | .R15d => 15

/-- `RegisterNumber for Register8`. -/
def Register8.number : Register8 → Nat
  | .Al => 0 | .Cl => 1 | .Dl => 2 | .Bl => 3
  | .Ah => 4 | .Ch => 5 | .Dh => 6 | .Bh => 7

/-- Modelled from the spec: the `Register64` → `Register32` conversion used by
`compiler.rs` (`reg.into()`); its `From` impl is absent from
`src/assembler.rs`.  The spec's register model pairs registers of each width
by ordinal number, so the conversion preserves `number`. -/
def Register64.to32 : Register64 → Register32
  | .Rax => .Eax | .Rcx => .Ecx | .Rdx => .Edx | .Rbx => .Ebx
  | .Rsp => .Esp | .Rbp => .Ebp | .Rsi => .Esi | .Rdi => .Edi
  | .R8 => .R8d | .R9 => .R9d | .R10 => .R10d | .R11 => .R11d
  | .R12 => .R12d | .R13 => .R13d | .R14 => .R14d | .R15 => .R15d

/-! ## Encoding primitives -/

/-- REX prefix byte. -/
def rex (w r x b : Bool) : Nat :=
  64 ||| ((if w then 1 else 0) <<< 3) ||| ((if r then 1 else 0) <<< 2) |||
    ((if x then 1 else 0) <<< 1) ||| (if b then 1 else 0)

/-- ModR/M byte. -/
def modRmByte (md reg rm : Nat) : Nat :=
  ((md &&& 3) <<< 6) ||| ((reg &&& 7) <<< 3) ||| (rm &&& 7)

/-- SIB byte. -/
def sibByte (scale index base : Nat) : Nat :=
  ((scale &&& 3) <<< 6) ||| ((index &&& 7) <<< 3) ||| (base &&& 7)

/-- A memory operand: base 64-bit register plus signed 32-bit displacement. -/
structure Addressing where
  base : Register64
  offset : Int
  deriving DecidableEq

/-- `Register64::with_offset`. -/
def Register64.with_offset (base : Register64) (offset : Int) : Addressing :=
  ⟨base, offset⟩

/-- `Register64::to_mem`. -/
def Register64.to_mem (base : Register64) : Addressing := ⟨base, 0⟩

/-- `Addressing::<Register64>::to_code`: ModR/M (+ SIB) + displacement bytes
for a memory operand. -/
def Addressing.to_code (a : Addressing) (reg_opcode : Nat) : List Nat :=
  let number := a.base.number
  if a.offset = 0 then
    match a.base with
    | .Rsp | .R12 => [modRmByte 0 reg_opcode 4, sibByte 0 4 4]
    | .Rbp | .R13 => [modRmByte 1 reg_opcode number, 0]
    | _ => [modRmByte 0 reg_opcode number]
  else if -128 ≤ a.offset ∧ a.offset ≤ 127 then
    match a.base with
    | .Rsp | .R12 => [modRmByte 1 reg_opcode 4, sibByte 0 4 4, u8cast a.offset]
    | _ => [modRmByte 1 reg_opcode number, u8cast a.offset]
  else
    match a.base with
    | .Rsp | .R12 => modRmByte 2 reg_opcode 4 :: sibByte 0 4 4 :: imm32 a.offset
    | _ => modRmByte 2 reg_opcode number :: imm32 a.offset

/-! ## Spec-side description of the addressing form (for claim C6 only) -/

/-- Whether the base always requires a SIB byte (claim's words: base is
`rsp` or `r12`). -/
def needsSib (base : Register64) : Bool :=
  match base with
  | .Rsp | .R12 => true
  | _ => false

/-- Whether a zero offset still requires a forced-zero 8-bit displacement
(claim's words: base is `rbp` or `r13`). -/
def forcedZeroDisp (base : Register64) : Bool :=
  match base with
  | .Rbp | .R13 => true
  | _ => false

/-- Displacement bytes demanded by the claim: none for offset 0 (except the
forced-zero byte for `rbp`/`r13`), one byte for offsets in [-128, 127],
otherwise four little-endian bytes. -/
def dispBytesSpec (base : Register64) (offset : Int) : List Nat :=
  if offset = 0 then (if forcedZeroDisp base then [0] else [])
  else if -128 ≤ offset ∧ offset ≤ 127 then [u8cast offset]
  else imm32 offset

/-- The ModR/M mod field matching a displacement encoding length. -/
def modeOfDisp : List Nat → Nat
  | [] => 0
  | [_] => 1
  | _ => 2

/-- The r/m field: 4 (SIB follows) for `rsp`/`r12`, else the base number. -/
def rmField (base : Register64) : Nat :=
  if needsSib base then 4 else base.number

/-! ## Instruction encoders (`src/assembler.rs`) -/

/-- `opcode_rm_reg` (shared by reg-reg `mov`/`add`/`sub`/`cmp`); `size` is
the operand size in bytes. -/
def opcodeRmReg (opcode : Nat) (size : Nat) (destN srcN : Nat) : List Nat :=
  [rex (size = 8) (srcN ≥ 8) false (destN ≥ 8), opcode, modRmByte 3 srcN destN]

/-- `Push for Register64`. -/
def pushR (r : Register64) : List Nat :=
  let number := r.number
  if number < 8 then [80 + number] else [65, 80 + number - 8]

/-- `Pop for Register64`. -/
def popR (r : Register64) : List Nat :=
  let number := r.number
  if number < 8 then [88 + number] else [65, 88 + number - 8]

/-- `Mov<Register64> for Register64`. -/
def movRR64 (dest src : Register64) : List Nat :=
  opcodeRmReg 137 8 dest.number src.number

/-- `Mov<i32> for Register32`. -/
def movR32Imm (dest : Register32) (src : Int) : List Nat :=
  let number := dest.number
  (if number < 8 then [184 + number] else [65, 184 + number - 8]) ++ imm32 src

/-- `Mov<i64> for Register64`. -/
def movR64Imm64 (dest : Register64) (src : Int) : List Nat :=
  let number := dest.number
  (if number < 8 then [72, 184 + number] else [73, 184 + number - 8]) ++ imm64 src

/-- `Mov<Addressing<Register64>> for Register64` (load). -/
def movR64Mem (dest : Register64) (src : Addressing) : List Nat :=
  rex true (dest.number ≥ 8) false (src.base.number ≥ 8) :: 139 ::
    src.to_code dest.number

/-- `Mov<Register64> for Addressing<Register64>` (store). -/
def movMemR64 (dest : Addressing) (src : Register64) : List Nat :=
  rex true (src.number ≥ 8) false (dest.base.number ≥ 8) :: 137 ::
    dest.to_code src.number

/-- `Call for Register64` (indirect call). -/
def callR (r : Register64) : List Nat :=
  let number := r.number
  if number < 8 then [255, 208 + number] else [65, 255, 208 + number - 8]

/-- `ret`. -/
def retC : List Nat := [195]

/-- `Add<Register64> for Register64`. -/
def addRR64 (dest src : Register64) : List Nat :=
  opcodeRmReg 1 8 dest.number src.number

/-- `Add<Register32> for Register32`. -/
def addRR32 (dest src : Register32) : List Nat :=
  opcodeRmReg 1 4 dest.number src.number

/-- `Add<i32> for Register64`. -/
def addR64Imm (dest : Register64) (src : Int) : List Nat :=
  rex true false false (dest.number ≥ 8) :: 129 :: modRmByte 3 0 dest.number ::
    imm32 src

/-- `Sub<Register64> for Register64`. -/
def subRR64 (dest src : Register64) : List Nat :=
  opcodeRmReg 41 8 dest.number src.number

/-- `Sub<Register32> for Register32`. -/
def subRR32 (dest src : Register32) : List Nat :=
  opcodeRmReg 41 4 dest.number src.number

/-- `Cmp<Register64> for Register64`. -/
def cmpRR64 (dest src : Register64) : List Nat :=
  opcodeRmReg 57 8 dest.number src.number

/-- `Cmp<Register32> for Register32`. -/
def cmpRR32 (dest src : Register32) : List Nat :=
  opcodeRmReg 57 4 dest.number src.number

/-- `Sete for Register8`. -/
def seteR8 (r : Register8) : List Nat := [15, 148, 192 ||| r.number]

/-- `Movzx<Register8> for Register32`. -/
def movzxR32R8 (dest : Register32) (src : Register8) : List Nat :=
  [15, 182, modRmByte 3 dest.number src.number]

/-- `Je for i32` (rel32, placeholder may be 0). -/
def jeRel (rel : Int) : List Nat := 15 :: 132 :: imm32 rel

/-- `Jmp for i32` (rel32). -/
def jmpRel (rel : Int) : List Nat := 233 :: imm32 rel

/-- Modelled from the spec: `cmp` of a 32-bit register against an immediate,
used by the `If` arm of `compiler.rs` (`reg32.cmp(0)`); its `Cmp<i32>` impl
is absent from `src/assembler.rs`.  Encoded in the standard group-7 form,
with a REX.B prefix for `r8d..r15d`, immediate little-endian. -/
def cmpR32Imm (dest : Register32) (src : Int) : List Nat :=
  (if dest.number ≥ 8 then [65] else []) ++
    129 :: modRmByte 3 7 dest.number :: imm32 src

/-- Modelled from the spec: reg-reg `mov` at 32-bit width, used by the
(unreachable) `I32Add`-discriminated branches of the `I32Eq`/`I64Eq` arm of
`compiler.rs`; its `Mov<Register32>` impl is absent from
`src/assembler.rs`.  Encoded like the other reg-reg forms via
`opcode_rm_reg` at size 4. -/
def movRR32 (dest src : Register32) : List Nat :=
  opcodeRmReg 137 4 dest.number src.number

/-! ## C6: shortest ModR/M form for memory operands -/

/-- C6: for every memory operand (base 64-bit register, signed 32-bit
displacement), `Addressing::to_code` emits the shortest ModR/M form — no
displacement when the offset is 0, an 8-bit displacement when the offset
fits in [-128, 127], else a 32-bit displacement — with a SIB byte exactly
when the base is `rsp`/`r12`, a forced-zero 8-bit displacement when the base
is `rbp`/`r13` with offset 0, and little-endian displacement bytes. -/
theorem to_code_shortest_form (base : Register64) (offset : Int)
    (reg_opcode : Nat) (h₁ : -2147483648 ≤ offset) (h₂ : offset < 2147483648) :
    Addressing.to_code ⟨base, offset⟩ reg_opcode =
      modRmByte (modeOfDisp (dispBytesSpec base offset)) reg_opcode
          (rmField base) ::
        ((if needsSib base then [sibByte 0 4 4] else []) ++
          dispBytesSpec base offset) := by
  by_cases h0 : offset = 0
  · cases base <;>
      simp [Addressing.to_code, dispBytesSpec, needsSib, forcedZeroDisp,
        rmField, modeOfDisp, h0]
  · by_cases h8 : -128 ≤ offset ∧ offset ≤ 127
    · cases base <;>
        simp [Addressing.to_code, dispBytesSpec, needsSib, forcedZeroDisp,
          rmField, modeOfDisp, h0, h8]
    · cases base <;>
        simp [Addressing.to_code, dispBytesSpec, needsSib, forcedZeroDisp,
          rmField, modeOfDisp, h0, h8, imm32]

/-- Witness for C6 at a concrete boundary case: base `rbp`, offset 0 gets the
forced-zero 8-bit displacement and no SIB byte. -/
theorem to_code_shortest_form_witness :
    (-2147483648 ≤ (0 : Int) ∧ (0 : Int) < 2147483648) ∧
      Addressing.to_code ⟨Register64.Rbp, 0⟩ 3 =
        modRmByte (modeOfDisp (dispBytesSpec Register64.Rbp 0)) 3
            (rmField Register64.Rbp) ::
          ((if needsSib Register64.Rbp then [sibByte 0 4 4] else []) ++
            dispBytesSpec Register64.Rbp 0) :=
  ⟨by decide, to_code_shortest_form Register64.Rbp 0 3 (by decide) (by decide)⟩

/-! ## Runtime value packing and errors (`src/runtime.rs`, `src/runtime/error.rs`) -/

/-- Wasm value types (`wasmparser::ValType`, the four the core accepts). -/
inductive ValType
  | I32 | I64 | F32 | F64
  deriving DecidableEq

/-- Host values (`runtime::Value`).  Floats are kept as their raw bit
patterns since the code only bit-casts them. -/
inductive Value
  | I32 (v : Int)
  | I64 (v : Int)
  | F32bits (bits : Nat)
  | F64bits (bits : Nat)
  deriving DecidableEq

/-- `Value::to_u64`: pack into a 64-bit slot (`i32` sign-extended). -/
def Value.to_u64 : Value → Nat
  | .I32 v => u64cast v
  | .I64 v => u64cast v
  | .F32bits b => b % 4294967296
  | .F64bits b => b % 18446744073709551616

/-- Rust `as i64`: the low 64 bits read as signed. -/
def asI64 (x : Int) : Int :=
  let m := x % 18446744073709551616
  if m < 9223372036854775808 then m else m - 18446744073709551616

/-- `Value::from_u64`: decode a 64-bit slot at a declared value type. -/
def Value.from_u64 (bytes : Nat) : ValType → Value
  | .I32 => .I32 (asI32 bytes)
  | .I64 => .I64 (asI64 bytes)
  | .F32 => .F32bits (bytes % 4294967296)
  | .F64 => .F64bits (bytes % 18446744073709551616)

/-- `RuntimeError` (`src/runtime/error.rs`): exactly three variants.  The
formatted message strings are dropped; the function errors keep the index
they are built from. -/
inductive RuntimeError
  | ExportNotFound
  | FunctionNotFound (index : Nat)
  | FunctionTypeNotFound (index : Nat)
  deriving DecidableEq

/-- Failure modes of embedded fallible code: a Rust panic (`unimplemented!`,
`unreachable!`, `expect`, debug-mode overflow, out-of-range indexing) or a
recoverable `anyhow` error carrying a `RuntimeError`. -/
inductive CompErr
  | panicErr
  | rtErr (e : RuntimeError)
  deriving DecidableEq

/-! ## The host→JIT call shape (`src/runtime.rs` vs `src/compiler.rs`) -/

/-- From `pub type JITFunc = fn(runtime: &mut Runtime, sp: *mut u64) -> u64`
in `compiler.rs`: the JIT function type has two parameters. -/
def jitFuncParamCount : Nat := 2

/-- From the `match args.len()` in `Runtime::call_func_by_index`
(`runtime.rs`): the call site passes the result pointer, the runtime, then
each argument value (or a single pointer to them when more than 10). -/
def callSiteArgCount (argsLen : Nat) : Nat :=
  if argsLen ≤ 10 then 2 + argsLen else 3

/-- The success value vector of `call_func_by_index` (`runtime.rs`,
`Ok(vec![value])`): always exactly the one slot read from the result
buffer. -/
def call_func_by_index_values (value : Nat) : List Nat := [value]

/-- The result shaping of `call_func_by_name` (`runtime.rs`,
`Ok(vec![Value::from_u64(result[0], &func_type.results()[0])])`): decode
element 0 of the vector returned by `call_func_by_index` at declared result
type 0; indexing panics when the declared result list is empty. -/
def call_func_by_name_values (results : List ValType) (value : Nat) :
    Except CompErr (List Value) :=
  match (call_func_by_index_values value).get? 0, results.get? 0 with
  | some v, some t => .ok [Value.from_u64 v t]
  | _, _ => .error .panicErr

/-! ## C1: the host→JIT argument-passing convention mismatch -/

/-- C1: the `add(1000, 2000)` scenario cannot run as claimed: for the two
argument values, `call_func_by_index` applies the JIT code pointer to four
arguments (result pointer, runtime, then the two reversed argument values in
registers), while the `JITFunc` type it is transmuted to — and the prologue
`compile_func` emits, which loads arguments from memory at `[rsi - 8(i+1)]` —
takes exactly two parameters (runtime, value-stack pointer). -/
theorem call_abi_arity_mismatch :
    callSiteArgCount 2 = 4 ∧ jitFuncParamCount = 2 ∧
      callSiteArgCount 2 ≠ jitFuncParamCount := by
  decide

/-! ## C5: result count of `call_func_by_name` -/

/-- C5 counterexample: for a function declaring zero results a successful
call does not return an empty vector — the result shaping panics (index out
of bounds on `results()[0]`). -/
theorem call_func_by_name_zero_results_panics :
    call_func_by_name_values [] 3000 = .error .panicErr ∧
      (Except.error CompErr.panicErr ≠
        (Except.ok ([] : List Value) : Except CompErr (List Value))) := by
  exact ⟨rfl, by simp⟩

/-- C5 amended: a successful `call_func_by_name` always returns exactly one
value, decoded at the first declared result type, whatever the declared
result count; for an empty declared result list it panics instead of
returning an empty vector. -/
theorem call_func_by_name_single_value (t : ValType) (rest : List ValType)
    (value : Nat) :
    call_func_by_name_values (t :: rest) value =
        .ok [Value.from_u64 value t] ∧
      (∀ vs, call_func_by_name_values (t :: rest) value = .ok vs →
        vs.length = 1) ∧
      call_func_by_name_values [] value = .error .panicErr := by
  refine ⟨rfl, ?_, rfl⟩
  intro vs h
  simp only [call_func_by_name_values, call_func_by_index_values] at h
  cases h
  rfl

/-! ## Wasm IR (`src/wasm.rs`, `wasmparser` subset) and store (`src/runtime/store.rs`) -/

/-- `wasmparser::BlockType`. -/
inductive BlockType
  | Empty
  | Typ (t : ValType)
  | FuncType (n : Nat)
  deriving DecidableEq

/-- The operator subset the generator matches on, plus two representatives
(`Nop`, `I32Mul`) of the operators outside the subset that fall to the
`_ => unimplemented!` arm. -/
inductive Operator
  | Call (function_index : Nat)
  | LocalGet (local_index : Nat)
  | I32Const (value : Int)
  | I64Const (value : Int)
  | I32Add
  | I64Add
  | I32Sub
  | I64Sub
  | I32Eq
  | I64Eq
  | If (blockty : BlockType)
  | Else
  | End
  | Nop
  | I32Mul
  deriving DecidableEq

/-- A function signature (`wasmparser::FuncType`). -/
structure FuncType where
  params : List ValType
  results : List ValType
  deriving DecidableEq

/-- A code-section entry (`wasm::Func`). -/
structure Func where
  locals : List (Nat × ValType)
  body : List Operator
  deriving DecidableEq

/-- The store (`runtime::store::Store`); the exports map is not needed by
the compilation path modelled here. -/
structure Store where
  types : List FuncType
  funcs : List Nat
  code : List Func
  deriving DecidableEq

/-- `Store::get_func_type_from_func_index`. -/
def Store.get_func_type_from_func_index (store : Store) (index : Nat) :
    Except CompErr FuncType :=
  match store.funcs.get? index with
  | none => .error (.rtErr (.FunctionNotFound index))
  | some func_index =>
    match store.types.get? func_index with
    | none => .error (.rtErr (.FunctionTypeNotFound index))
    | some func_type => .ok func_type

/-- Modelled from the spec: `Store::get_func_type`, called by the `If` and
`End` arms of `compiler.rs` but absent from `src/runtime/store.rs`; per the
spec's module IR it resolves `types[n]`. -/
def Store.get_func_type (store : Store) (n : Nat) : Except CompErr FuncType :=
  match store.types.get? n with
  | none => .error (.rtErr (.FunctionTypeNotFound n))
  | some func_type => .ok func_type

/-! ## Emitted instructions

The generator emits code through the typed assembler; each constructor below
is one assembler call, and `Instr.encode` is the byte sequence that call
produces.  The code buffer holds the concatenated bytes. -/

/-- One assembler call made by the generator. -/
inductive Instr
  | MovRR (dest src : Register64)
  | MovRR32v (dest src : Register32)
  | MovR32I (dest : Register32) (src : Int)
  | MovRI64 (dest : Register64) (src : Int)
  | MovRMem (dest : Register64) (src : Addressing)
  | MovMemR (dest : Addressing) (src : Register64)
  | AddRR (dest src : Register64)
  | AddRR32v (dest src : Register32)
  | AddImm (dest : Register64) (src : Int)
  | SubRR (dest src : Register64)
  | SubRR32v (dest src : Register32)
  | CmpRR (dest src : Register64)
  | CmpRR32v (dest src : Register32)
  | CmpR32I (dest : Register32) (src : Int)
  | SeteI (r : Register8)
  | MovzxI (dest : Register32) (src : Register8)
  | PushReg (r : Register64)
  | PopReg (r : Register64)
  | CallReg (r : Register64)
  | JeI (rel : Int)
  | JmpI (rel : Int)
  deriving DecidableEq

/-- The bytes an assembler call emits. -/
def Instr.encode : Instr → List Nat
  | .MovRR dest src => movRR64 dest src
  | .MovRR32v dest src => movRR32 dest src
  | .MovR32I dest src => movR32Imm dest src
  | .MovRI64 dest src => movR64Imm64 dest src
  | .MovRMem dest src => movR64Mem dest src
  | .MovMemR dest src => movMemR64 dest src
  | .AddRR dest src => addRR64 dest src
  | .AddRR32v dest src => addRR32 dest src
  | .AddImm dest src => addR64Imm dest src
  | .SubRR dest src => subRR64 dest src
  | .SubRR32v dest src => subRR32 dest src
  | .CmpRR dest src => cmpRR64 dest src
  | .CmpRR32v dest src => cmpRR32 dest src
  | .CmpR32I dest src => cmpR32Imm dest src
  | .SeteI r => seteR8 r
  | .MovzxI dest src => movzxR32R8 dest src
  | .PushReg r => pushR r
  | .PopReg r => popR r
  | .CallReg r => callR r
  | .JeI rel => jeRel rel
  | .JmpI rel => jmpRel rel

/-- Concatenated bytes of a sequence of assembler calls. -/
def instrsBytes (l : List Instr) : List Nat := (l.map Instr.encode).join

/-- Whether an instruction is a (conditional or unconditional) jump. -/
def Instr.isJump : Instr → Bool
  | .JeI _ | .JmpI _ => true
  | _ => false

/-- Whether an instruction is a comparison (any width, any operand shape). -/
def Instr.isCmp : Instr → Bool
  | .CmpRR _ _ | .CmpRR32v _ _ | .CmpR32I _ _ => true
  | _ => false

/-! ## The virtual stack (`VartualStack` in `src/compiler.rs`) -/

/-- A deferred operand-stack entry. -/
inductive StackValue
  | Imm (n : Int)
  | Reg (r : Register64)
  deriving DecidableEq

/-- The register-allocating virtual stack.  `stack` holds the deque with its
front at the list head (so `push_back` appends); `unused_regs` likewise. -/
structure VartualStack where
  stack : List StackValue
  unused_regs : List Register64
  deriving DecidableEq

/-- `VartualStack::new`. -/
def VartualStack.new : VartualStack :=
  ⟨[], [.Rdi, .Rsi, .Rdx, .Rcx, .R8, .R9, .R10]⟩

/-- `Compiler::push_data`: store a register to the native value stack and
advance `r11` by 8. -/
def push_data (data : Register64) : List Instr :=
  [.MovMemR (Register64.to_mem .R11) data, .AddImm .R11 8]

/-- `Compiler::pop_data`: retreat `r11` by 8 and load a register from the
native value stack. -/
def pop_data (data : Register64) : List Instr :=
  [.AddImm .R11 (-8), .MovRMem data (Register64.to_mem .R11)]

/-- The spill loop inside `VartualStack::get_unused_reg`: pop entries from
the deque front, writing each to the native value stack, until a register
entry frees its register; the `expect("stack is empty")` panic is the empty
case. -/
def spillUntilReg : List StackValue →
    Except CompErr (List Instr × Register64 × List StackValue)
  | [] => .error .panicErr
  | .Imm n :: rest => do
      let (c, r, rest') ← spillUntilReg rest
      .ok ((.MovRI64 .Rax n :: push_data .Rax) ++ c, r, rest')
  | .Reg r :: rest => .ok (push_data r, r, rest)

/-- `VartualStack::get_unused_reg`: take a register from the pool, spilling
the oldest deque entries when the pool is empty. -/
def VartualStack.get_unused_reg (v : VartualStack) :
    Except CompErr (List Instr × Register64 × VartualStack) :=
  match v.unused_regs with
  | r :: rest => .ok ([], r, { v with unused_regs := rest })
  | [] => do
      let (c, r, stack') ← spillUntilReg v.stack
      .ok (c, r, { v with stack := stack' })

/-- `VartualStack::pop_value`: take the deque back, or reload a slot from
the native value stack into a fresh register. -/
def VartualStack.pop_value (v : VartualStack) :
    Except CompErr (List Instr × StackValue × VartualStack) :=
  match v.stack.getLast? with
  | some value => .ok ([], value, { v with stack := v.stack.dropLast })
  | none => do
      let (c, r, v') ← v.get_unused_reg
      .ok (c ++ pop_data r, .Reg r, v')

/-- The loop body of `VartualStack::push_all` over the deque from the front;
returns the emitted code and the final register pool. -/
def pushAllGo : List StackValue → List Register64 → List Instr × List Register64
  | [], unused => ([], unused)
  | .Imm n :: rest, unused =>
      let (c, u) := pushAllGo rest unused
      ((.MovRI64 .Rax n :: push_data .Rax) ++ c, u)
  | .Reg r :: rest, unused =>
      let (c, u) := pushAllGo rest (unused ++ [r])
      (push_data r ++ c, u)

/-- `VartualStack::push_all`: materialise every deferred entry onto the
native value stack, returning all registers to the pool. -/
def VartualStack.push_all (v : VartualStack) : List Instr × VartualStack :=
  let (c, u) := pushAllGo v.stack v.unused_regs
  (c, ⟨[], u⟩)

/-! ## Compile-time state (`stack_count`, `labels`, the code buffer) -/

/-- A structured-control-flow frame (`compiler::Label`).  Patch sites are
byte offsets from the function's start pointer. -/
inductive Label
  | FuncEnd (address_reserved : List Nat)
  | LoopStart (start : Nat) (start_offset : Nat) (block_type : BlockType)
  | End (address_reserved : List Nat) (start_offset : Nat)
      (block_type : BlockType) (else_vartual_stack : Option VartualStack)
  deriving DecidableEq

/-- The per-function compile state threaded through `Compiler::compile` (the
`&mut` parameters bundled into one record).  `buf` is the code emitted so
far; `p_current` is `buf.length`. -/
structure CompState where
  buf : List Nat
  stack_count : Nat
  vstack : VartualStack
  labels : List Label
  deriving DecidableEq

/-- `Compiler::write_i32`: write the four little-endian bytes of `value`
at byte offset `p`. -/
def write_i32 (buf : List Nat) (p : Nat) (value : Int) : List Nat :=
  ((imm32 value).enum).foldl (fun b iv => b.set (p + iv.1) iv.2) buf

/-- `Compiler::local_offset` with `LOCAL_BASE_COUNT = 1`. -/
def local_offset (local_index : Nat) : Nat := 8 * (1 + 1) + local_index * 8

/-- Checked `usize` subtraction (Rust debug builds panic on underflow). -/
def usizeSub (a b : Nat) : Except CompErr Nat :=
  if b ≤ a then .ok (a - b) else .error .panicErr

/-- Checked `i64` arithmetic result (Rust debug builds panic on overflow). -/
def i64chk (x : Int) : Except CompErr Int :=
  if -9223372036854775808 ≤ x ∧ x < 9223372036854775808 then .ok x
  else .error .panicErr

/-- The block parameter count the `If` arm computes (0 unless the block type
names a function type). -/
def block_params_len (store : Store) : BlockType → Except CompErr Nat
  | .FuncType n => do
      let func_type ← store.get_func_type n
      .ok func_type.params.length
  | _ => .ok 0

/-- The block result count the `End` arm computes. -/
def block_result_len (store : Store) : BlockType → Except CompErr Nat
  | .FuncType n => do
      let func_type ← store.get_func_type n
      .ok func_type.results.length
  | .Typ _ => .ok 1
  | .Empty => .ok 0

/-- The patch loop shared by the `Else`/`End`/`FuncEnd` patching code
(`for address in address_reserved { ... write_i32(address.sub(4), ...) }`):
write `target - address`, truncated to `i32`, into the four bytes preceding
each recorded site. -/
def patch_reserved (target : Nat) (address_reserved : List Nat)
    (buf : List Nat) : Except CompErr (List Nat) :=
  address_reserved.foldlM (fun b addr => do
      let rel ← usizeSub target addr
      Except.ok (write_i32 b (addr - 4) (asI32 (rel : Int)))) buf

/-- The merge loop of the `End` arm (`for _ in 0..result_len.min(7)`):
each round frees a register, reloads it from the native value stack and
pushes it at the deque front. -/
def end_merge_loop : Nat → VartualStack →
    Except CompErr (List Instr × VartualStack)
  | 0, v => .ok ([], v)
  | Nat.succ k, v => do
      let (c, reg, v₁) ← v.get_unused_reg
      let v₂ : VartualStack := { v₁ with stack := .Reg reg :: v₁.stack }
      let (c', v₃) ← end_merge_loop k v₂
      .ok (c ++ pop_data reg ++ c', v₃)

/-- The inputs of `Compiler::compile` that stay fixed over a function body:
the store, the function's own index, and the two host addresses the `Call`
arm loads (`self.p_func_start` and `Runtime::call_func_internal`). -/
structure CompileCtx where
  store : Store
  func_index : Nat
  p_func_start : Int
  internal_addr : Int
  deriving DecidableEq

/-! ## `Compiler::compile`, one operator at a time -/

/-- The body of the per-operator `match` inside `Compiler::compile`.  The
`I32Sub`/`I64Sub` or-pattern with its `matches!(value1, Reg(_))` test is
written as two separate arms with the same meaning. -/
def compile_op (ctx : CompileCtx) (instr : Operator) (s : CompState) :
    Except CompErr CompState :=
  match instr with
  | .Call function_index => do
      let func_type ← ctx.store.get_func_type_from_func_index function_index
      let args_num := func_type.params.length
      let (c₀, v₁) := s.vstack.push_all
      let callCode : List Instr :=
        [.MovRMem .Rdi (Register64.with_offset .Rbp (-8)),
         .MovRR .Rsi .R11,
         .MovR32I .Edx (asI32 function_index),
         .MovRI64 .R10
           (if function_index = ctx.func_index then ctx.p_func_start
            else ctx.internal_addr),
         .PushReg .R11,
         .CallReg .R10]
      let sc₁ ← usizeSub s.stack_count args_num
      let adjustCode : List Instr :=
        [.PopReg .R11,
         .AddImm .R11 (8 * ((func_type.results.length : Int) - (args_num : Int)))]
      .ok { s with
        buf := s.buf ++ instrsBytes (c₀ ++ callCode ++ adjustCode),
        stack_count := sc₁ + func_type.results.length,
        vstack := v₁ }
  | .LocalGet local_index => do
      let offset : Int := (local_offset local_index : Nat)
      let (c, reg, v₁) ← s.vstack.get_unused_reg
      .ok { s with
        buf := s.buf ++
          instrsBytes (c ++ [.MovRMem reg (Register64.with_offset .Rbp (-offset))]),
        stack_count := s.stack_count + 1,
        vstack := { v₁ with stack := v₁.stack ++ [.Reg reg] } }
  | .I32Const value =>
      .ok { s with
        stack_count := s.stack_count + 1,
        vstack := { s.vstack with stack := s.vstack.stack ++ [.Imm value] } }
  | .I64Const value =>
      .ok { s with
        stack_count := s.stack_count + 1,
        vstack := { s.vstack with stack := s.vstack.stack ++ [.Imm value] } }
  | .I32Add | .I64Add => do
      let (c₂, value2, v₁) ← s.vstack.pop_value
      let (c₁, value1, v₂) ← v₁.pop_value
      let sc ← usizeSub s.stack_count 1
      match value1, value2 with
      | .Imm n, .Imm m => do
          let sum ← i64chk (n + m)
          .ok { s with
                buf := s.buf ++ instrsBytes (c₂ ++ c₁),
                stack_count := sc,
                vstack := { v₂ with stack := v₂.stack ++ [.Imm sum] } }
      | .Reg reg1, .Reg reg2 =>
          let code : List Instr :=
            if instr = .I32Add then [.AddRR32v reg1.to32 reg2.to32]
            else [.AddRR reg1 reg2]
          .ok { s with
                buf := s.buf ++ instrsBytes (c₂ ++ c₁ ++ code),
                stack_count := sc,
                vstack := { v₂ with
                  stack := v₂.stack ++ [.Reg reg1],
                  unused_regs := v₂.unused_regs ++ [reg2] } }
      | .Reg reg, .Imm n | .Imm n, .Reg reg =>
          let code : List Instr :=
            if instr = .I32Add then
              [.MovR32I .Eax (asI32 n), .AddRR32v reg.to32 .Eax]
            else [.MovRI64 .Rax n, .AddRR reg .Rax]
          .ok { s with
                buf := s.buf ++ instrsBytes (c₂ ++ c₁ ++ code),
                stack_count := sc,
                vstack := { v₂ with stack := v₂.stack ++ [.Reg reg] } }
  | .I32Sub | .I64Sub => do
      let (c₂, value2, v₁) ← s.vstack.pop_value
      let (c₁, value1, v₂) ← v₁.pop_value
      let sc ← usizeSub s.stack_count 1
      match value1, value2 with
      | .Imm n, .Imm m => do
          let diff ← i64chk (n - m)
          .ok { s with
                buf := s.buf ++ instrsBytes (c₂ ++ c₁),
                stack_count := sc,
                vstack := { v₂ with stack := v₂.stack ++ [.Imm diff] } }
      | .Reg reg1, .Reg reg2 =>
          let code : List Instr :=
            if instr = .I32Sub then [.SubRR32v reg1.to32 reg2.to32]
            else [.SubRR reg1 reg2]
          .ok { s with
                buf := s.buf ++ instrsBytes (c₂ ++ c₁ ++ code),
                stack_count := sc,
                vstack := { v₂ with
                  stack := v₂.stack ++ [.Reg reg1],
                  unused_regs := v₂.unused_regs ++ [reg2] } }
      | .Reg reg, .Imm n =>
          let code : List Instr :=
            if instr = .I32Sub then
              [.MovR32I .Eax (asI32 n), .SubRR32v reg.to32 .Eax]
            else [.MovRI64 .Rax n, .SubRR reg .Rax]
          .ok { s with
                buf := s.buf ++ instrsBytes (c₂ ++ c₁ ++ code),
                stack_count := sc,
                vstack := { v₂ with stack := v₂.stack ++ [.Reg reg] } }
      | .Imm n, .Reg reg =>
          let code : List Instr :=
            if instr = .I32Sub then
              [.MovR32I .Eax (asI32 n), .SubRR32v .Eax reg.to32,
               .MovRR32v reg.to32 .Eax]
            else [.MovRI64 .Rax n, .SubRR .Rax reg, .MovRR reg .Rax]
          .ok { s with
                buf := s.buf ++ instrsBytes (c₂ ++ c₁ ++ code),
                stack_count := sc,
                vstack := { v₂ with stack := v₂.stack ++ [.Reg reg] } }
  | .I32Eq | .I64Eq => do
      let (c₂, value2, v₁) ← s.vstack.pop_value
      let (c₁, value1, v₂) ← v₁.pop_value
      let sc ← usizeSub s.stack_count 1
      match value1, value2 with
      | .Imm n, .Imm m =>
          .ok { s with
                buf := s.buf ++ instrsBytes (c₂ ++ c₁),
                stack_count := sc,
                vstack := { v₂ with
                  stack := v₂.stack ++ [.Imm (if n = m then 1 else 0)] } }
      | .Reg reg1, .Reg reg2 =>
          let code : List Instr :=
            if instr = .I32Add then
              [.CmpRR32v reg1.to32 reg2.to32, .SeteI .Al, .MovzxI .Eax .Al,
               .MovRR32v reg1.to32 .Eax]
            else
              [.CmpRR reg1 reg2, .SeteI .Al, .MovzxI .Eax .Al,
               .MovRR reg1 .Rax]
          .ok { s with
                buf := s.buf ++ instrsBytes (c₂ ++ c₁ ++ code),
                stack_count := sc,
                vstack := { v₂ with
                  stack := v₂.stack ++ [.Reg reg1],
                  unused_regs := v₂.unused_regs ++ [reg2] } }
      | .Reg reg, .Imm n | .Imm n, .Reg reg =>
          let code : List Instr :=
            if instr = .I32Add then
              [.MovR32I .Eax (asI32 n), .CmpRR32v reg.to32 .Eax, .SeteI .Al,
               .MovzxI .Eax .Al, .MovRR32v reg.to32 .Eax]
            else
              [.MovRI64 .Rax n, .CmpRR reg .Rax, .SeteI .Al,
               .MovzxI .Eax .Al, .MovRR reg .Rax]
          .ok { s with
                buf := s.buf ++ instrsBytes (c₂ ++ c₁ ++ code),
                stack_count := sc,
                vstack := { v₂ with stack := v₂.stack ++ [.Reg reg] } }
  | .If blockty => do
      let (c, value, v₁) ← s.vstack.pop_value
      let (condCode, v₂) :=
        match value with
        | .Imm n =>
            (([.MovR32I .Eax (asI32 n), .CmpR32I .Eax 0, .JeI 0] : List Instr),
              v₁)
        | .Reg reg =>
            (([.CmpR32I reg.to32 0, .JeI 0] : List Instr),
              { v₁ with unused_regs := v₁.unused_regs ++ [reg] })
      let params_len ← block_params_len ctx.store blockty
      let sc ← usizeSub s.stack_count 1
      let start_offset ← usizeSub sc params_len
      let buf' := s.buf ++ instrsBytes (c ++ condCode)
      .ok { buf := buf',
            stack_count := sc,
            vstack := v₂,
            labels := .End [buf'.length] start_offset blockty (some v₂)
              :: s.labels }
  | .Else =>
      match s.labels with
      | .End address_reserved start_offset block_type else_vs :: rest => do
          let (c₀, v₁) := s.vstack.push_all
          let vs' ← match else_vs with
            | some vs => Except.ok vs
            | none => Except.error CompErr.panicErr
          let buf₁ := s.buf ++ instrsBytes (c₀ ++ [.JmpI 0])
          match address_reserved ++ [buf₁.length] with
          | [] => .error .panicErr
          | if_start :: sites' => do
              let rel ← usizeSub buf₁.length if_start
              .ok { buf := write_i32 buf₁ (if_start - 4) (asI32 rel),
                    stack_count := start_offset,
                    vstack := vs',
                    labels := .End sites' start_offset block_type none :: rest }
      | _ => .error .panicErr
  | .End =>
      match s.labels with
      | [] => .error .panicErr
      | .End address_reserved start_offset block_type _ :: rest => do
          let (c₀, v₁) := s.vstack.push_all
          let buf₁ := s.buf ++ instrsBytes c₀
          let buf₂ ← patch_reserved buf₁.length address_reserved buf₁
          let result_len ← block_result_len ctx.store block_type
          let diff ← usizeSub s.stack_count start_offset
          if result_len = diff then
            .ok { buf := buf₂, stack_count := s.stack_count, vstack := v₁,
                  labels := rest }
          else do
            let relation : Int := asI32 diff * 8
            let (mc, v₂) ← end_merge_loop (min result_len 7) v₁
            let extra : List Instr :=
              if result_len > 7 then
                .AddImm .R11 (-relation + 7 * 8) ::
                  (List.replicate (result_len - 7)
                    (.MovRMem .Rax
                        (Register64.with_offset .R11
                          (relation - (result_len : Int) * 8)) ::
                      push_data .Rax)).join
              else []
            .ok { buf := buf₂ ++ instrsBytes (mc ++ extra),
                  stack_count := start_offset + result_len,
                  vstack := v₂,
                  labels := rest }
      | .FuncEnd address_reserved :: rest => do
          let buf₂ ← patch_reserved s.buf.length address_reserved s.buf
          .ok { s with buf := buf₂, labels := rest }
      | .LoopStart _ _ _ :: _ => .error .panicErr
  | .Nop => .error .panicErr
  | .I32Mul => .error .panicErr

/-- The loop of `Compiler::compile` over a function body. -/
def compile (ctx : CompileCtx) (body : List Operator) (s : CompState) :
    Except CompErr CompState :=
  body.foldlM (fun st op => compile_op ctx op st) s

/-! ## Support lemmas -/

/-- A successful checked `usize` subtraction inverts an addition. -/
theorem usizeSub_ok {a b d : Nat} (h : usizeSub a b = .ok d) : a = b + d := by
  unfold usizeSub at h
  split at h
  · cases h
    omega
  · cases h

/-- `pop_value` on a deque with a known back entry pops it with no code. -/
theorem pop_value_concat (v : VartualStack) (pre : List StackValue)
    (x : StackValue) (h : v.stack = pre ++ [x]) :
    v.pop_value = .ok ([], x, { v with stack := pre }) := by
  simp [VartualStack.pop_value, h]

/-! ## C2: comparison width of `i32.eq` -/

/-- C2: `i32.eq` with both operands in registers emits the 64-bit
`cmp rdi, rsi` (REX.W prefix byte 72 = 0x48), not the 32-bit form
(whose REX byte would be 64 = 0x40): the arm discriminates on
`Operator::I32Add`, which an `I32Eq` instruction never equals, so the
64-bit branch is always taken and the pushed value is the 64-bit equality
of the two slots, not their low-32-bit equality. -/
theorem i32_eq_emits_64bit_cmp :
    compile_op ⟨⟨[], [], []⟩, 0, 0, 0⟩ .I32Eq
        ⟨[], 2, ⟨[.Reg .Rdi, .Reg .Rsi], [.Rdx, .Rcx, .R8, .R9, .R10]⟩,
          [.FuncEnd []]⟩ =
      .ok ⟨[72, 57, 247, 15, 148, 192, 15, 182, 192, 72, 137, 199], 1,
        ⟨[.Reg .Rdi], [.Rdx, .Rcx, .R8, .R9, .R10, .Rsi]⟩, [.FuncEnd []]⟩ ∧
      cmpRR64 .Rdi .Rsi = [72, 57, 247] ∧
      cmpRR32 (Register64.to32 .Rdi) (Register64.to32 .Rsi) = [64, 57, 247] := by
  exact ⟨rfl, rfl, rfl⟩

/-! ## C4: unsupported operators panic instead of returning an error -/

/-- C4 counterexample: a body holding an operator outside the supported
subset makes compilation hit the `_ => unimplemented!` arm — a panic — not
a recoverable `UnsupportedInstruction` error (no such variant exists in
`RuntimeError`). -/
theorem unsupported_op_panics_cx :
    compile ⟨⟨[], [], []⟩, 0, 0, 0⟩ [.Nop]
        ⟨[], 0, VartualStack.new, [.FuncEnd []]⟩ = .error .panicErr ∧
      (∀ e : RuntimeError, CompErr.panicErr ≠ .rtErr e) := by
  refine ⟨rfl, ?_⟩
  intro e h
  cases h

/-- C4 amended: every operator outside the supported subset (here the
representatives `Nop` and `I32Mul`) makes compilation panic via
`unimplemented!`, from any state; and the recoverable error type carries
only the three resolution variants, none of them an
`UnsupportedInstruction`. -/
theorem unsupported_op_panics (ctx : CompileCtx) (s : CompState) :
    compile_op ctx .Nop s = .error .panicErr ∧
      compile_op ctx .I32Mul s = .error .panicErr ∧
      (∀ e : CompErr, e = .panicErr ∨ e = .rtErr .ExportNotFound ∨
        (∃ i, e = .rtErr (.FunctionNotFound i)) ∨
        (∃ i, e = .rtErr (.FunctionTypeNotFound i))) := by
  refine ⟨rfl, rfl, ?_⟩
  intro e
  match e with
  | .panicErr => exact Or.inl rfl
  | .rtErr .ExportNotFound => exact Or.inr (Or.inl rfl)
  | .rtErr (.FunctionNotFound i) => exact Or.inr (Or.inr (Or.inl ⟨i, rfl⟩))
  | .rtErr (.FunctionTypeNotFound i) =>
      exact Or.inr (Or.inr (Or.inr ⟨i, rfl⟩))

/-! ## C9: constant folding of i32 operations -/

/-- C9 counterexample: folding `i32.add` on the `Imm` entries 2147483647
and 1 yields `Imm 2147483648`, whose 64-bit value is not the
sign-extension of its low 32 bits: the sign-extended 32-bit wraparound
result the claim predicts is -2147483648. -/
theorem i32_add_fold_overflow_cx :
    compile_op ⟨⟨[], [], []⟩, 0, 0, 0⟩ .I32Add
        ⟨[], 2, ⟨[.Imm 2147483647, .Imm 1], VartualStack.new.unused_regs⟩,
          [.FuncEnd []]⟩ =
      .ok ⟨[], 1, ⟨[.Imm 2147483648], VartualStack.new.unused_regs⟩,
        [.FuncEnd []]⟩ ∧
      asI32 (2147483647 + 1) = -2147483648 ∧
      (2147483648 : Int) ≠ asI32 (2147483647 + 1) := by
  refine ⟨rfl, by decide, by decide⟩

/-- C9 amended: constant folding of `i32.add` (and `i32.sub`) on two `Imm`
entries pushes the plain 64-bit sum (difference) of the stored 64-bit
values, with no truncation or sign-extension at 32 bits; it therefore
agrees with the sign-extended 32-bit wraparound result exactly when that
sum (difference) already fits in 32 bits, as it does for in-range
`i32.const` inputs that do not overflow. -/
theorem i32_fold_is_plain_i64_arith (ctx : CompileCtx) (s : CompState)
    (n m : Int) (pre : List StackValue)
    (hst : s.vstack.stack = pre ++ [.Imm n, .Imm m]) :
    (∀ s', compile_op ctx .I32Add s = .ok s' →
        s'.vstack.stack = pre ++ [.Imm (n + m)]) ∧
      (∀ s', compile_op ctx .I32Sub s = .ok s' →
        s'.vstack.stack = pre ++ [.Imm (n - m)]) ∧
      (∀ x, -2147483648 ≤ x → x < 2147483648 → asI32 x = x) := by
  have hpop₁ : s.vstack.pop_value =
      .ok ([], .Imm m, { s.vstack with stack := pre ++ [.Imm n] }) := by
    refine pop_value_concat _ (pre ++ [.Imm n]) _ ?_
    simpa using hst
  have hpop₂ : ({ s.vstack with stack := pre ++ [.Imm n] } :
        VartualStack).pop_value =
      .ok ([], .Imm n, { s.vstack with stack := pre }) :=
    pop_value_concat _ pre _ rfl
  refine ⟨?_, ?_, ?_⟩
  · intro s' h
    simp only [compile_op, hpop₁, hpop₂, Except.bind, bind] at h
    cases husz : usizeSub s.stack_count 1 with
    | error e => rw [husz] at h; cases h
    | ok sc =>
      rw [husz] at h
      cases hs : i64chk (n + m) with
      | error e => rw [hs] at h; cases h
      | ok sum =>
        rw [hs] at h
        unfold i64chk at hs
        split at hs
        · cases hs
          cases h
          simp
        · cases hs
  · intro s' h
    simp only [compile_op, hpop₁, hpop₂, Except.bind, bind] at h
    cases husz : usizeSub s.stack_count 1 with
    | error e => rw [husz] at h; cases h
    | ok sc =>
      rw [husz] at h
      cases hs : i64chk (n - m) with
      | error e => rw [hs] at h; cases h
      | ok diff =>
        rw [hs] at h
        unfold i64chk at hs
        split at hs
        · cases hs
          cases h
          simp
        · cases hs
  · intro x h₁ h₂
    simp only [asI32]
    split <;> omega

/-- Witness for C9's amended statement at a concrete state: adding the two
`Imm` entries 3 and 4 folds to `Imm 7`. -/
theorem i32_fold_is_plain_i64_arith_witness :
    (⟨[], 1, ⟨[.Imm 7], VartualStack.new.unused_regs⟩, [.FuncEnd []]⟩ :
        CompState).vstack.stack = [] ++ [.Imm (3 + 4)] :=
  (i32_fold_is_plain_i64_arith ⟨⟨[], [], []⟩, 0, 0, 0⟩
    ⟨[], 2, ⟨[.Imm 3, .Imm 4], VartualStack.new.unused_regs⟩, [.FuncEnd []]⟩
    3 4 [] rfl).1
    ⟨[], 1, ⟨[.Imm 7], VartualStack.new.unused_regs⟩, [.FuncEnd []]⟩ rfl

/-! ## C3: no error-handle check after a `call` -/

/-- The assembler calls the `Call` arm makes, in emission order: the
`push_all` materialisation, the argument set-up, the indirect call, and the
value-stack-pointer adjustment. -/
def call_arm_instrs (ctx : CompileCtx) (function_index : Nat)
    (func_type : FuncType) (v : VartualStack) : List Instr :=
  (v.push_all).1 ++
    [.MovRMem .Rdi (Register64.with_offset .Rbp (-8)),
     .MovRR .Rsi .R11,
     .MovR32I .Edx (asI32 function_index),
     .MovRI64 .R10
       (if function_index = ctx.func_index then ctx.p_func_start
        else ctx.internal_addr),
     .PushReg .R11,
     .CallReg .R10,
     .PopReg .R11,
     .AddImm .R11
       (8 * ((func_type.results.length : Int) - (func_type.params.length : Int)))]

/-- Nothing `push_all` emits is a jump or a comparison. -/
theorem pushAllGo_no_jump (st : List StackValue) (u : List Register64) :
    ∀ i ∈ (pushAllGo st u).1, i.isJump = false ∧ i.isCmp = false := by
  induction st generalizing u with
  | nil =>
      intro i hi
      simp [pushAllGo] at hi
  | cons x rest ih =>
      intro i hi
      cases x with
      | Imm n =>
          simp only [pushAllGo, push_data, List.cons_append, List.nil_append,
            List.mem_cons] at hi
          rcases hi with h | h | h | h
          · subst h; exact ⟨rfl, rfl⟩
          · subst h; exact ⟨rfl, rfl⟩
          · subst h; exact ⟨rfl, rfl⟩
          · exact ih u i h
      | Reg r =>
          simp only [pushAllGo, push_data, List.cons_append, List.nil_append,
            List.mem_cons] at hi
          rcases hi with h | h | h
          · subst h; exact ⟨rfl, rfl⟩
          · subst h; exact ⟨rfl, rfl⟩
          · exact ih (u ++ [r]) i h

/-- C3 counterexample: compiling a concrete `call` (callee index 1, no
parameters, one result, from an empty virtual stack) appends exactly the
straight-line sequence `mov rdi,[rbp-8]; mov rsi,r11; mov edx,1;
mov r10,addr; push r11; call r10; pop r11; add r11,8` — the emitted code
contains no comparison and no (conditional) jump at all, so nothing checks
the callee's return value or jumps to the epilogue. -/
theorem call_no_check_cx :
    compile_op ⟨⟨[⟨[], [.I64]⟩], [0, 0], []⟩, 0, 4096, 8192⟩ (.Call 1)
        ⟨[], 0, VartualStack.new, [.FuncEnd []]⟩ =
      .ok ⟨[72, 139, 125, 248, 76, 137, 222, 186, 1, 0, 0, 0, 73, 186, 0, 32,
            0, 0, 0, 0, 0, 0, 65, 83, 65, 255, 210, 65, 91, 73, 129, 195, 8,
            0, 0, 0], 1, VartualStack.new, [.FuncEnd []]⟩ ∧
      ((call_arm_instrs ⟨⟨[⟨[], [.I64]⟩], [0, 0], []⟩, 0, 4096, 8192⟩ 1
          ⟨[], [.I64]⟩ VartualStack.new).all
        fun i => !i.isJump && !i.isCmp) = true := by
  exact ⟨rfl, rfl⟩

/-- C3 amended: for every successfully compiled `call` operator the bytes
appended to the code buffer are exactly the encoding of
`call_arm_instrs` — materialisation, argument set-up, `call r10`, then only
`pop r11; add r11, 8*(results-params)` — and none of those instructions is
a jump or a comparison: the callee's return value is never checked and no
branch to the epilogue exists. -/
theorem call_emits_no_check (ctx : CompileCtx) (fi : Nat) (s s' : CompState)
    (h : compile_op ctx (.Call fi) s = .ok s') :
    ∃ ft, ctx.store.get_func_type_from_func_index fi = .ok ft ∧
      s'.buf = s.buf ++ instrsBytes (call_arm_instrs ctx fi ft s.vstack) ∧
      ∀ i ∈ call_arm_instrs ctx fi ft s.vstack,
        i.isJump = false ∧ i.isCmp = false := by
  cases hft : ctx.store.get_func_type_from_func_index fi with
  | error e =>
      simp only [compile_op, hft, Except.bind, bind] at h
      cases h
  | ok ft =>
    simp only [compile_op, hft, Except.bind, bind] at h
    cases husz : usizeSub s.stack_count ft.params.length with
    | error e =>
        simp only [husz] at h
        cases h
    | ok sc =>
      simp only [husz] at h
      cases h
      refine ⟨ft, rfl, ?_, ?_⟩
      · simp [call_arm_instrs, instrsBytes]
      · intro i hi
        simp only [call_arm_instrs] at hi
        rcases List.mem_append.1 hi with hmem | hmem
        · exact pushAllGo_no_jump s.vstack.stack s.vstack.unused_regs i hmem
        · fin_cases hmem <;> exact ⟨rfl, rfl⟩

/-- Witness for C3's amended statement: the concrete `call` of
`call_no_check_cx`-shape inputs compiles, and the theorem's conclusion
holds there. -/
theorem call_emits_no_check_witness :
    ∃ ft, Store.get_func_type_from_func_index ⟨[⟨[], [.I64]⟩], [0, 0], []⟩ 1 =
        .ok ft ∧
      (⟨[72, 139, 125, 248, 76, 137, 222, 186, 1, 0, 0, 0, 73, 186, 0, 32,
          0, 0, 0, 0, 0, 0, 65, 83, 65, 255, 210, 65, 91, 73, 129, 195, 8,
          0, 0, 0], 1, VartualStack.new, [.FuncEnd []]⟩ : CompState).buf =
        ([] : List Nat) ++
          instrsBytes (call_arm_instrs ⟨⟨[⟨[], [.I64]⟩], [0, 0], []⟩, 0,
            4096, 8192⟩ 1 ft VartualStack.new) ∧
      ∀ i ∈ call_arm_instrs ⟨⟨[⟨[], [.I64]⟩], [0, 0], []⟩, 0, 4096, 8192⟩ 1
          ft VartualStack.new,
        i.isJump = false ∧ i.isCmp = false :=
  call_emits_no_check ⟨⟨[⟨[], [.I64]⟩], [0, 0], []⟩, 0, 4096, 8192⟩ 1
    ⟨[], 0, VartualStack.new, [.FuncEnd []]⟩
    ⟨[72, 139, 125, 248, 76, 137, 222, 186, 1, 0, 0, 0, 73, 186, 0, 32,
      0, 0, 0, 0, 0, 0, 65, 83, 65, 255, 210, 65, 91, 73, 129, 195, 8,
      0, 0, 0], 1, VartualStack.new, [.FuncEnd []]⟩ rfl

/-! ## C8: `stack_count` after the `end` of an `If` block -/

/-- C8: after processing the `end` of an `If` block whose frame recorded
checkpoint `chk` and whose block type has output arity `n`, the compile-time
`stack_count` seen by the next emitted operator is `chk + n`, whether the
merge move ran or not. -/
theorem end_restores_checkpoint (ctx : CompileCtx) (s s' : CompState)
    (sites : List Nat) (chk : Nat) (bt : BlockType)
    (snap : Option VartualStack) (rest : List Label) (n : Nat)
    (hl : s.labels = .End sites chk bt snap :: rest)
    (hn : block_result_len ctx.store bt = .ok n)
    (h : compile_op ctx .End s = .ok s') :
    s'.stack_count = chk + n := by
  simp only [compile_op, hl, Except.bind, bind] at h
  split at h
  · cases h
  · simp only [hn] at h
    split at h
    · cases h
    · rename_i diff hd
      have hsc := usizeSub_ok hd
      split at h
      · cases h
        rename_i hnd
        show s.stack_count = chk + n
        omega
      · split at h
        · cases h
        · cases h
          rfl

/-- Witness for C8: a concrete `end` of an empty `If` block with checkpoint
0 and output arity 0 leaves `stack_count` at 0. -/
theorem end_restores_checkpoint_witness :
    (⟨[], 0, VartualStack.new, []⟩ : CompState).stack_count = 0 + 0 :=
  end_restores_checkpoint ⟨⟨[], [], []⟩, 0, 0, 0⟩
    ⟨[], 0, VartualStack.new, [.End [] 0 .Empty none]⟩
    ⟨[], 0, VartualStack.new, []⟩ [] 0 .Empty none [] 0 rfl rfl rfl

/-! ## C7: forward-jump patch sites -/

/-- Four consecutive `set`s starting at an in-bounds offset splice four
bytes into a list. -/
theorem set4_eq (b : List Nat) (p : Nat) (b0 b1 b2 b3 : Nat)
    (h : p + 4 ≤ b.length) :
    (((b.set p b0).set (p + 1) b1).set (p + 2) b2).set (p + 3) b3 =
      b.take p ++ [b0, b1, b2, b3] ++ b.drop (p + 4) := by
  induction p generalizing b with
  | zero =>
      match b with
      | [] => simp at h
      | [c0] => simp at h
      | [c0, c1] => simp at h
      | [c0, c1, c2] => simp at h
      | c0 :: c1 :: c2 :: c3 :: rest => rfl
  | succ p ih =>
      match b with
      | [] => simp at h
      | c :: xs =>
        have h' : p + 4 ≤ xs.length := by
          simp only [List.length_cons] at h
          omega
        have hstep :
            ((((c :: xs).set (p + 1) b0).set (p + 1 + 1) b1).set (p + 1 + 2)
                b2).set (p + 1 + 3) b3 =
              c :: ((((xs.set p b0).set (p + 1) b1).set (p + 2) b2).set (p + 3)
                b3) := rfl
        have htake : (c :: xs).take (p + 1) = c :: xs.take p := rfl
        have hdrop : (c :: xs).drop (p + 1 + 4) = xs.drop (p + 4) := rfl
        rw [hstep, ih xs h', htake, hdrop]
        simp

/-- `write_i32` splices the four little-endian bytes of its value into the
buffer at the given offset (in-bounds case). -/
theorem write_i32_eq_patch (buf : List Nat) (p : Nat) (v : Int)
    (h : p + 4 ≤ buf.length) :
    write_i32 buf p v = buf.take p ++ imm32 v ++ buf.drop (p + 4) := by
  have hw : write_i32 buf p v =
      (((buf.set p (u32cast v % 256)).set (p + 1)
          (u32cast v / 256 % 256)).set (p + 2)
          (u32cast v / 65536 % 256)).set (p + 3)
          (u32cast v / 16777216 % 256) := rfl
  rw [hw, set4_eq buf p _ _ _ _ h]
  rfl

/-- Truncating a value to `i32` does not change its little-endian 32-bit
byte encoding. -/
theorem imm32_asI32 (x : Int) : imm32 (asI32 x) = imm32 x := by
  have h : asI32 x % 4294967296 = x % 4294967296 := by
    simp only [asI32]
    split <;> omega
  unfold imm32 u32cast
  rw [h]

/-- `instrsBytes` distributes over concatenation. -/
theorem instrsBytes_append (l₁ l₂ : List Instr) :
    instrsBytes (l₁ ++ l₂) = instrsBytes l₁ ++ instrsBytes l₂ := by
  simp [instrsBytes]

/-- The `If` arm records, as its frame's single pending site, the buffer
position immediately after the 4-byte `je` placeholder it just emitted. -/
theorem if_arm_patch_site (ctx : CompileCtx) (bt : BlockType) (s s' : CompState)
    (h : compile_op ctx (.If bt) s = .ok s') :
    ∃ pre chk snap, s'.buf = pre ++ jeRel 0 ∧
      s'.labels = .End [s'.buf.length] chk bt (some snap) :: s.labels := by
  simp only [compile_op, Except.bind, bind] at h
  cases hpop : s.vstack.pop_value with
  | error e =>
      simp only [hpop] at h
      cases h
  | ok cv =>
    simp only [hpop] at h
    obtain ⟨c, value, v₁⟩ := cv
    cases hbp : block_params_len ctx.store bt with
    | error e => simp only [hbp] at h; cases h
    | ok params_len =>
      simp only [hbp] at h
      cases husz : usizeSub s.stack_count 1 with
      | error e => simp only [husz] at h; cases h
      | ok sc =>
        simp only [husz] at h
        cases husz2 : usizeSub sc params_len with
        | error e => simp only [husz2] at h; cases h
        | ok chk =>
          simp only [husz2] at h
          cases value with
          | Imm n =>
              cases h
              refine ⟨s.buf ++ instrsBytes (c ++
                [.MovR32I .Eax (asI32 n), .CmpR32I .Eax 0]), chk, v₁, ?_, rfl⟩
              simp [instrsBytes, Instr.encode]
          | Reg reg =>
              cases h
              refine ⟨s.buf ++ instrsBytes (c ++ [.CmpR32I reg.to32 0]), chk,
                { v₁ with unused_regs := v₁.unused_regs ++ [reg] }, ?_, rfl⟩
              simp [instrsBytes, Instr.encode]

/-- `write_i32` preserves the buffer length. -/
theorem write_i32_length (buf : List Nat) (p : Nat) (v : Int) :
    (write_i32 buf p v).length = buf.length := by
  have hw : write_i32 buf p v =
      (((buf.set p (u32cast v % 256)).set (p + 1)
          (u32cast v / 256 % 256)).set (p + 2)
          (u32cast v / 65536 % 256)).set (p + 3)
          (u32cast v / 16777216 % 256) := rfl
  rw [hw]
  simp [List.length_set]

/-- The patch loop succeeds on in-bounds, pairwise-separated sites and
writes, into the four bytes preceding each site, the little-endian value
`target - site`, leaving the length and everything before the patched
regions unchanged. -/
theorem patch_reserved_spec (t : Nat) (sites : List Nat) : ∀ (b : List Nat),
    t ≤ b.length →
    (∀ site ∈ sites, 4 ≤ site ∧ site ≤ t) →
    List.Pairwise (fun a c => a + 4 ≤ c) sites →
    ∃ b', patch_reserved t sites b = .ok b' ∧
      b'.length = b.length ∧
      (∀ m, (∀ site ∈ sites, m + 4 ≤ site) → b'.take m = b.take m) ∧
      (∀ site ∈ sites,
        (b'.drop (site - 4)).take 4 = imm32 ((t - site : Nat))) := by
  induction sites with
  | nil =>
      intro b _ _ _
      exact ⟨b, rfl, rfl, fun m _ => rfl, fun site hs => absurd hs (by simp)⟩
  | cons site rest ih =>
      intro b hlen hb hpw
      have h4 : 4 ≤ site := (hb site (List.mem_cons_self _ _)).1
      have hst : site ≤ t := (hb site (List.mem_cons_self _ _)).2
      have husz : usizeSub t site = .ok (t - site) := by
        unfold usizeSub
        rw [if_pos hst]
      have hs4 : site - 4 + 4 = site := by omega
      have hbnd : site - 4 + 4 ≤ b.length := by omega
      have hXlen : (b.take (site - 4)).length = site - 4 := by
        rw [List.length_take]
        omega
      have hb₁ : write_i32 b (site - 4) (asI32 ((t - site : Nat) : Int)) =
          b.take (site - 4) ++ imm32 ((t - site : Nat)) ++ b.drop site := by
        rw [write_i32_eq_patch b (site - 4) _ hbnd, imm32_asI32, hs4]
      have hb₁len : (write_i32 b (site - 4)
          (asI32 ((t - site : Nat) : Int))).length = b.length :=
        write_i32_length b _ _
      obtain ⟨b', hfold, hlen', hpre, hsites⟩ :=
        ih (write_i32 b (site - 4) (asI32 ((t - site : Nat) : Int)))
          (by omega)
          (fun s hs => hb s (List.mem_cons_of_mem _ hs))
          hpw.of_cons
      have hfold' : patch_reserved t (site :: rest) b = .ok b' := by
        simp only [patch_reserved, List.foldlM_cons, husz, Except.bind, bind]
        exact hfold
      have hpw_head : ∀ s ∈ rest, site + 4 ≤ s := by
        intro s hs
        exact (List.pairwise_cons.1 hpw).1 s hs
      refine ⟨b', hfold', by omega, ?_, ?_⟩
      · intro m hm
        have h₁ : b'.take m =
            (write_i32 b (site - 4) (asI32 ((t - site : Nat) : Int))).take m := by
          refine hpre m ?_
          intro s hs
          have := hpw_head s hs
          have := hm s (List.mem_cons_of_mem _ hs)
          omega
        have hmle : m ≤ site - 4 := by
          have := hm site (List.mem_cons_self _ _)
          omega
        rw [h₁, hb₁]
        rw [List.append_assoc, List.take_append_of_le_length (by omega),
          List.take_take]
        congr 1
        omega
      · intro s hs
        rcases List.mem_cons.1 hs with hcase | hcase
        · subst hcase
          have hps : b'.take s =
              (write_i32 b (s - 4) (asI32 ((t - s : Nat) : Int))).take s := by
            refine hpre s ?_
            intro s' hs'
            exact hpw_head s' hs'
          have hq : (b'.drop (s - 4)).take 4 = (b'.take s).drop (s - 4) := by
            have hs' : s - 4 + 4 = s := by omega
            rw [List.take_drop, hs']
          rw [hq, hps, hb₁]
          have himmlen : (imm32 ((t - s : Nat) : Int)).length = 4 := rfl
          have hXimm : ((b.take (s - 4) ++ imm32 ((t - s : Nat))) ++
              b.drop s).take s = b.take (s - 4) ++ imm32 ((t - s : Nat)) := by
            refine List.take_left' ?_
            rw [List.length_append, hXlen, himmlen]
            omega
          rw [hXimm]
          refine List.drop_left' ?_
          exact hXlen
        · exact hsites s hcase

/-- On `else` the generator patches exactly the first recorded site (the
original `je`) with `target - site` little-endian in the four bytes
preceding the site, where the target is the position right after the
just-emitted `jmp` placeholder, whose own site is appended to the frame. -/
theorem else_arm_patch (ctx : CompileCtx) (s s' : CompState) (site : Nat)
    (sites : List Nat) (chk : Nat) (bt : BlockType) (snap : VartualStack)
    (rest : List Label)
    (hl : s.labels = .End (site :: sites) chk bt (some snap) :: rest)
    (h : compile_op ctx .Else s = .ok s')
    (h4 : 4 ≤ site)
    (hle : site ≤
      (s.buf ++ instrsBytes ((s.vstack.push_all).1 ++ [.JmpI 0])).length) :
    s'.buf =
      (s.buf ++ instrsBytes ((s.vstack.push_all).1 ++ [.JmpI 0])).take
          (site - 4) ++
        imm32 (((s.buf ++ instrsBytes ((s.vstack.push_all).1 ++
          [.JmpI 0])).length - site : Nat)) ++
        (s.buf ++ instrsBytes ((s.vstack.push_all).1 ++ [.JmpI 0])).drop site ∧
      s'.labels = .End (sites ++
          [(s.buf ++ instrsBytes ((s.vstack.push_all).1 ++
            [.JmpI 0])).length]) chk bt none :: rest := by
  simp only [compile_op, hl, Except.bind, bind, List.cons_append] at h
  cases husz : usizeSub
      (s.buf ++ instrsBytes ((s.vstack.push_all).1 ++ [.JmpI 0])).length
      site with
  | error e =>
      simp only [husz] at h
      cases h
  | ok rel =>
      simp only [husz] at h
      cases h
      have hrel : rel =
          (s.buf ++ instrsBytes ((s.vstack.push_all).1 ++
            [.JmpI 0])).length - site := by
        have := usizeSub_ok husz
        omega
      have hbnd : site - 4 + 4 ≤
          (s.buf ++ instrsBytes ((s.vstack.push_all).1 ++
            [.JmpI 0])).length := by omega
      have hs4 : site - 4 + 4 = site := by omega
      subst hrel
      refine ⟨?_, rfl⟩
      rw [write_i32_eq_patch _ _ _ hbnd, imm32_asI32, hs4]

/-- On `end` of an `If` frame every remaining recorded site receives, in the
four bytes preceding it, the little-endian value `target - site`, where the
target is the position reached after the frame's `push_all`
materialisation. -/
theorem end_arm_patch (ctx : CompileCtx) (s s' : CompState)
    (sites : List Nat) (chk : Nat) (bt : BlockType)
    (snap : Option VartualStack) (rest : List Label)
    (hl : s.labels = .End sites chk bt snap :: rest)
    (h : compile_op ctx .End s = .ok s')
    (hb : ∀ site ∈ sites, 4 ≤ site ∧
      site ≤ (s.buf ++ instrsBytes (s.vstack.push_all).1).length)
    (hpw : List.Pairwise (fun a c => a + 4 ≤ c) sites) :
    ∀ site ∈ sites, (s'.buf.drop (site - 4)).take 4 =
      imm32 (((s.buf ++ instrsBytes (s.vstack.push_all).1).length -
        site : Nat)) := by
  obtain ⟨b₂, hfold, hlen₂, _, hsites⟩ :=
    patch_reserved_spec (s.buf ++ instrsBytes (s.vstack.push_all).1).length
      sites (s.buf ++ instrsBytes (s.vstack.push_all).1) le_rfl hb hpw
  simp only [compile_op, hl, Except.bind, bind] at h
  rw [hfold] at h
  simp only at h
  intro site hs
  have h4 : 4 ≤ site := (hb site hs).1
  have hst : site ≤ (s.buf ++ instrsBytes (s.vstack.push_all).1).length :=
    (hb site hs).2
  have hdropln : site - 4 + 4 ≤ b₂.length := by omega
  cases hres : block_result_len ctx.store bt with
  | error e =>
      simp only [hres] at h
      cases h
  | ok result_len =>
    simp only [hres] at h
    cases hd : usizeSub s.stack_count chk with
    | error e =>
        simp only [hd] at h
        cases h
    | ok diff =>
      simp only [hd] at h
      by_cases hnd : result_len = diff
      · simp only [hnd, if_pos rfl] at h
        cases h
        exact hsites site hs
      · rw [if_neg hnd] at h
        cases hml : end_merge_loop (min result_len 7)
            (s.vstack.push_all).2 with
        | error e =>
            simp only [hml] at h
            cases h
        | ok mcv =>
            simp only [hml] at h
            cases h
            show ((b₂ ++ _).drop (site - 4)).take 4 = _
            rw [List.drop_append_of_le_length (by omega),
              List.take_append_of_le_length (by rw [List.length_drop]; omega)]
            exact hsites site hs

/-- C7: the forward-jump patch protocol.  (1) The `If` arm records, as the
frame's single pending site, the buffer position immediately following the
4-byte `je` placeholder.  (2) At `else`, exactly the first recorded site
(the original `je`) is patched: the four bytes preceding it become the
little-endian value `target - site`, the target being the position right
after the new `jmp` placeholder, whose site is appended.  (3) At `end`,
every remaining site gets `target - site` little-endian in the four bytes
preceding it, the target being the position after the frame's closing
materialisation. -/
theorem forward_patch_protocol :
    (∀ (ctx : CompileCtx) (bt : BlockType) (s s' : CompState),
      compile_op ctx (.If bt) s = .ok s' →
      ∃ pre chk snap, s'.buf = pre ++ jeRel 0 ∧
        s'.labels = .End [s'.buf.length] chk bt (some snap) :: s.labels) ∧
    (∀ (ctx : CompileCtx) (s s' : CompState) (site : Nat) (sites : List Nat)
      (chk : Nat) (bt : BlockType) (snap : VartualStack) (rest : List Label),
      s.labels = .End (site :: sites) chk bt (some snap) :: rest →
      compile_op ctx .Else s = .ok s' →
      4 ≤ site →
      site ≤ (s.buf ++ instrsBytes ((s.vstack.push_all).1 ++
        [.JmpI 0])).length →
      s'.buf =
        (s.buf ++ instrsBytes ((s.vstack.push_all).1 ++ [.JmpI 0])).take
            (site - 4) ++
          imm32 (((s.buf ++ instrsBytes ((s.vstack.push_all).1 ++
            [.JmpI 0])).length - site : Nat)) ++
          (s.buf ++ instrsBytes ((s.vstack.push_all).1 ++
            [.JmpI 0])).drop site ∧
        s'.labels = .End (sites ++
            [(s.buf ++ instrsBytes ((s.vstack.push_all).1 ++
              [.JmpI 0])).length]) chk bt none :: rest) ∧
    (∀ (ctx : CompileCtx) (s s' : CompState) (sites : List Nat) (chk : Nat)
      (bt : BlockType) (snap : Option VartualStack) (rest : List Label),
      s.labels = .End sites chk bt snap :: rest →
      compile_op ctx .End s = .ok s' →
      (∀ site ∈ sites, 4 ≤ site ∧
        site ≤ (s.buf ++ instrsBytes (s.vstack.push_all).1).length) →
      List.Pairwise (fun a c => a + 4 ≤ c) sites →
      ∀ site ∈ sites, (s'.buf.drop (site - 4)).take 4 =
        imm32 (((s.buf ++ instrsBytes (s.vstack.push_all).1).length -
          site : Nat))) :=
  ⟨fun ctx bt s s' h => if_arm_patch_site ctx bt s s' h,
   fun ctx s s' site sites chk bt snap rest hl h h4 hle =>
     else_arm_patch ctx s s' site sites chk bt snap rest hl h h4 hle,
   fun ctx s s' sites chk bt snap rest hl h hb hpw =>
     end_arm_patch ctx s s' sites chk bt snap rest hl h hb hpw⟩

/-- Witness for C7 on a concrete `if 1 ... else ... end` compilation: the
`if` records site 17 right after its placeholder; the `else` patches it to
the relative offset 5 and appends its own site 22; the `end` patches that
site with offset 0. -/
theorem forward_patch_protocol_witness :
    (∃ pre chk snap,
      (⟨[184, 1, 0, 0, 0, 129, 248, 0, 0, 0, 0, 15, 132, 0, 0, 0, 0], 0,
          ⟨[], [.Rdi, .Rsi, .Rdx, .Rcx, .R8, .R9, .R10]⟩,
          [.End [17] 0 .Empty
              (some ⟨[], [.Rdi, .Rsi, .Rdx, .Rcx, .R8, .R9, .R10]⟩),
            .FuncEnd []]⟩ : CompState).buf = pre ++ jeRel 0 ∧
        (⟨[184, 1, 0, 0, 0, 129, 248, 0, 0, 0, 0, 15, 132, 0, 0, 0, 0], 0,
          ⟨[], [.Rdi, .Rsi, .Rdx, .Rcx, .R8, .R9, .R10]⟩,
          [.End [17] 0 .Empty
              (some ⟨[], [.Rdi, .Rsi, .Rdx, .Rcx, .R8, .R9, .R10]⟩),
            .FuncEnd []]⟩ : CompState).labels =
          .End [(⟨[184, 1, 0, 0, 0, 129, 248, 0, 0, 0, 0, 15, 132, 0, 0, 0,
                0], 0, ⟨[], [.Rdi, .Rsi, .Rdx, .Rcx, .R8, .R9, .R10]⟩,
              [.End [17] 0 .Empty
                  (some ⟨[], [.Rdi, .Rsi, .Rdx, .Rcx, .R8, .R9, .R10]⟩),
                .FuncEnd []]⟩ : CompState).buf.length] chk .Empty (some snap)
            :: (⟨[], 1, ⟨[.Imm 1], [.Rdi, .Rsi, .Rdx, .Rcx, .R8, .R9, .R10]⟩,
              [.FuncEnd []]⟩ : CompState).labels) ∧
    ((⟨[184, 1, 0, 0, 0, 129, 248, 0, 0, 0, 0, 15, 132, 5, 0, 0, 0, 233, 0,
        0, 0, 0], 0, ⟨[], [.Rdi, .Rsi, .Rdx, .Rcx, .R8, .R9, .R10]⟩,
        [.End [22] 0 .Empty none, .FuncEnd []]⟩ : CompState).buf =
      (([184, 1, 0, 0, 0, 129, 248, 0, 0, 0, 0, 15, 132, 0, 0, 0, 0] :
          List Nat) ++ instrsBytes
          ((VartualStack.push_all
            ⟨[], [.Rdi, .Rsi, .Rdx, .Rcx, .R8, .R9, .R10]⟩).1 ++
            [.JmpI 0])).take (17 - 4) ++
        imm32 (((([184, 1, 0, 0, 0, 129, 248, 0, 0, 0, 0, 15, 132, 0, 0, 0,
          0] : List Nat) ++ instrsBytes
          ((VartualStack.push_all
            ⟨[], [.Rdi, .Rsi, .Rdx, .Rcx, .R8, .R9, .R10]⟩).1 ++
            [.JmpI 0])).length - 17 : Nat)) ++
        (([184, 1, 0, 0, 0, 129, 248, 0, 0, 0, 0, 15, 132, 0, 0, 0, 0] :
          List Nat) ++ instrsBytes
          ((VartualStack.push_all
            ⟨[], [.Rdi, .Rsi, .Rdx, .Rcx, .R8, .R9, .R10]⟩).1 ++
            [.JmpI 0])).drop 17 ∧
      (⟨[184, 1, 0, 0, 0, 129, 248, 0, 0, 0, 0, 15, 132, 5, 0, 0, 0, 233, 0,
        0, 0, 0], 0, ⟨[], [.Rdi, .Rsi, .Rdx, .Rcx, .R8, .R9, .R10]⟩,
        [.End [22] 0 .Empty none, .FuncEnd []]⟩ : CompState).labels =
        .End ([] ++ [(([184, 1, 0, 0, 0, 129, 248, 0, 0, 0, 0, 15, 132, 0, 0,
            0, 0] : List Nat) ++ instrsBytes
            ((VartualStack.push_all
              ⟨[], [.Rdi, .Rsi, .Rdx, .Rcx, .R8, .R9, .R10]⟩).1 ++
              [.JmpI 0])).length]) 0 .Empty none :: [.FuncEnd []]) ∧
    (∀ site ∈ ([22] : List Nat),
      ((⟨[184, 1, 0, 0, 0, 129, 248, 0, 0, 0, 0, 15, 132, 5, 0, 0, 0, 233,
          0, 0, 0, 0], 0, ⟨[], [.Rdi, .Rsi, .Rdx, .Rcx, .R8, .R9, .R10]⟩,
          [.FuncEnd []]⟩ : CompState).buf.drop (site - 4)).take 4 =
        imm32 (((([184, 1, 0, 0, 0, 129, 248, 0, 0, 0, 0, 15, 132, 5, 0, 0,
          0, 233, 0, 0, 0, 0] : List Nat) ++ instrsBytes
          (VartualStack.push_all
            ⟨[], [.Rdi, .Rsi, .Rdx, .Rcx, .R8, .R9, .R10]⟩).1).length -
          site : Nat))) := by
  refine ⟨?_, ?_, ?_⟩
  · exact forward_patch_protocol.1 ⟨⟨[], [], []⟩, 0, 0, 0⟩ .Empty
      ⟨[], 1, ⟨[.Imm 1], [.Rdi, .Rsi, .Rdx, .Rcx, .R8, .R9, .R10]⟩,
        [.FuncEnd []]⟩ _ rfl
  · exact forward_patch_protocol.2.1 ⟨⟨[], [], []⟩, 0, 0, 0⟩
      ⟨[184, 1, 0, 0, 0, 129, 248, 0, 0, 0, 0, 15, 132, 0, 0, 0, 0], 0,
        ⟨[], [.Rdi, .Rsi, .Rdx, .Rcx, .R8, .R9, .R10]⟩,
        [.End [17] 0 .Empty
            (some ⟨[], [.Rdi, .Rsi, .Rdx, .Rcx, .R8, .R9, .R10]⟩),
          .FuncEnd []]⟩ _ 17 [] 0 .Empty
      ⟨[], [.Rdi, .Rsi, .Rdx, .Rcx, .R8, .R9, .R10]⟩ [.FuncEnd []] rfl rfl
      (by decide) (by decide)
  · exact forward_patch_protocol.2.2 ⟨⟨[], [], []⟩, 0, 0, 0⟩
      ⟨[184, 1, 0, 0, 0, 129, 248, 0, 0, 0, 0, 15, 132, 5, 0, 0, 0, 233, 0,
        0, 0, 0], 0, ⟨[], [.Rdi, .Rsi, .Rdx, .Rcx, .R8, .R9, .R10]⟩,
        [.End [22] 0 .Empty none, .FuncEnd []]⟩ _ [22] 0 .Empty none
      [.FuncEnd []] rfl rfl (by decide) (by decide)

/-! ## C10: the register-pool invariant of the virtual stack -/

/-- The scratch-register pool (`VartualStack::new`'s `unused_regs`). -/
def pool : List Register64 := [.Rdi, .Rsi, .Rdx, .Rcx, .R8, .R9, .R10]

/-- The registers referenced by the deque's `Reg` entries, in deque order. -/
def stackRegs (stack : List StackValue) : List Register64 :=
  stack.filterMap fun v =>
    match v with
    | .Reg r => some r
    | .Imm _ => none

/-- How often a register is referenced across the pool's free list and the
deque. -/
def countAll (r : Register64) (v : VartualStack) : Nat :=
  v.unused_regs.count r + (stackRegs v.stack).count r

/-- Both register lists mention pool registers only. -/
def PoolMem (v : VartualStack) : Prop :=
  (∀ r ∈ v.unused_regs, r ∈ pool) ∧ (∀ r ∈ stackRegs v.stack, r ∈ pool)

/-- The register-pool invariant: every pool register is referenced exactly
once, either as free or by one `Reg` entry. -/
def RegInv (v : VartualStack) : Prop :=
  PoolMem v ∧ ∀ r ∈ pool, countAll r v = 1

/-- The state in the middle of an operator arm, after one register has been
taken out of circulation. -/
def RegInvExcept (x : Register64) (v : VartualStack) : Prop :=
  PoolMem v ∧ x ∈ pool ∧ countAll x v = 0 ∧
    ∀ r ∈ pool, r ≠ x → countAll r v = 1

/-- The state after two distinct registers have been taken. -/
def RegInvExcept2 (x y : Register64) (v : VartualStack) : Prop :=
  PoolMem v ∧ x ∈ pool ∧ y ∈ pool ∧ x ≠ y ∧ countAll x v = 0 ∧
    countAll y v = 0 ∧ ∀ r ∈ pool, r ≠ x → r ≠ y → countAll r v = 1

/-- Snapshots stored in `If` frames satisfy the invariant. -/
def labelsInv (ls : List Label) : Prop :=
  ∀ l ∈ ls, ∀ sites chk bt vs,
    l = Label.End sites chk bt (some vs) → RegInv vs

/-- The full compile-state invariant for claim C10. -/
def StateInv (s : CompState) : Prop := RegInv s.vstack ∧ labelsInv s.labels

/-- `stackRegs` distributes over concatenation. -/
theorem stackRegs_append (a b : List StackValue) :
    stackRegs (a ++ b) = stackRegs a ++ stackRegs b := by
  simp [stackRegs]

/-- The spill loop returns the first `Reg` entry's register and drops the
entries before and including it. -/
theorem spillUntilReg_spec (stack : List StackValue)
    (hex : ∃ x, StackValue.Reg x ∈ stack) :
    ∃ c r rest, spillUntilReg stack = .ok (c, r, rest) ∧
      stackRegs stack = r :: stackRegs rest := by
  induction stack with
  | nil =>
      obtain ⟨x, hx⟩ := hex
      simp at hx
  | cons y tail ih =>
      cases y with
      | Imm n =>
          obtain ⟨x, hx⟩ := hex
          have hx' : StackValue.Reg x ∈ tail := by
            rcases List.mem_cons.1 hx with h | h
            · cases h
            · exact h
          obtain ⟨c, r, rest, hspill, hsr⟩ := ih ⟨x, hx'⟩
          refine ⟨(.MovRI64 .Rax n :: push_data .Rax) ++ c, r, rest, ?_, ?_⟩
          · simp only [spillUntilReg, hspill, Except.bind, bind]
          · simpa [stackRegs] using hsr
      | Reg r =>
          exact ⟨push_data r, r, tail, rfl, by simp [stackRegs]⟩

/-- `get_unused_reg` succeeds whenever some pool register is still
referenced, and removes exactly one reference to the register it returns. -/
theorem get_unused_reg_specG (v : VartualStack) (hpm : PoolMem v)
    (hex : ∃ r ∈ pool, 1 ≤ countAll r v) :
    ∃ c x v', v.get_unused_reg = .ok (c, x, v') ∧ x ∈ pool ∧ PoolMem v' ∧
      1 ≤ countAll x v ∧ countAll x v' = countAll x v - 1 ∧
      ∀ r, r ≠ x → countAll r v' = countAll r v := by
  cases hu : v.unused_regs with
  | cons x rest =>
      refine ⟨[], x, { v with unused_regs := rest }, ?_, ?_, ⟨?_, ?_⟩, ?_, ?_, ?_⟩
      · simp [VartualStack.get_unused_reg, hu]
      · exact hpm.1 x (by rw [hu]; exact List.mem_cons_self _ _)
      · intro r hr
        exact hpm.1 r (by rw [hu]; exact List.mem_cons_of_mem _ hr)
      · exact hpm.2
      · simp only [countAll, hu, List.count_cons_self]
        omega
      · simp only [countAll, hu, List.count_cons_self]
        omega
      · intro r hr
        simp [countAll, hu, List.count_cons_of_ne hr]
  | nil =>
      obtain ⟨r₀, hr₀, hc₀⟩ := hex
      have hr₀s : r₀ ∈ stackRegs v.stack := by
        rw [← List.count_pos_iff_mem]
        simp only [countAll, hu, List.count_nil] at hc₀
        omega
      have hexr : ∃ x, StackValue.Reg x ∈ v.stack := by
        obtain ⟨b, hb, hfb⟩ := List.mem_filterMap.1 hr₀s
        cases b with
        | Imm n => simp at hfb
        | Reg x =>
            refine ⟨x, ?_⟩
            simp at hfb
            subst hfb
            exact hb
      obtain ⟨c, r, rest, hspill, hsr⟩ := spillUntilReg_spec v.stack hexr
      refine ⟨c, r, { v with stack := rest }, ?_, ?_, ⟨?_, ?_⟩, ?_, ?_, ?_⟩
      · simp [VartualStack.get_unused_reg, hu, hspill, Except.bind, bind]
      · exact hpm.2 r (by rw [hsr]; exact List.mem_cons_self _ _)
      · intro r' hr'
        exact hpm.1 r' hr'
      · intro r' hr'
        exact hpm.2 r' (by rw [hsr]; exact List.mem_cons_of_mem _ hr')
      · simp only [countAll, hu, hsr, List.count_nil, List.count_cons_self]
        omega
      · simp only [countAll, hu, hsr, List.count_nil, List.count_cons_self]
        omega
      · intro r' hr'
        simp [countAll, hu, hsr, List.count_cons_of_ne hr']

/-- `pop_value` succeeds whenever some pool register is still referenced; an
`Imm` result leaves all reference counts unchanged, a `Reg` result removes
exactly one reference to the returned register. -/
theorem pop_value_specG (v : VartualStack) (hpm : PoolMem v)
    (hex : ∃ r ∈ pool, 1 ≤ countAll r v) :
    ∃ c val v', v.pop_value = .ok (c, val, v') ∧ PoolMem v' ∧
      ((∃ n, val = .Imm n ∧ ∀ r, countAll r v' = countAll r v) ∨
       (∃ x, val = .Reg x ∧ x ∈ pool ∧ 1 ≤ countAll x v ∧
         countAll x v' = countAll x v - 1 ∧
         ∀ r, r ≠ x → countAll r v' = countAll r v)) := by
  rcases List.eq_nil_or_concat v.stack with hnil | ⟨pre, y, hy⟩
  · obtain ⟨c, x, v', hg, hx, hpm', hc1, hc2, hc3⟩ :=
      get_unused_reg_specG v hpm hex
    refine ⟨c ++ pop_data x, .Reg x, v', ?_, hpm', Or.inr ⟨x, rfl, hx, hc1, hc2, hc3⟩⟩
    simp [VartualStack.pop_value, hnil, hg, Except.bind, bind]
  · rw [List.concat_eq_append] at hy
    have hpop : v.pop_value = .ok ([], y, { v with stack := pre }) :=
      pop_value_concat v pre y hy
    cases y with
    | Imm n =>
        refine ⟨[], .Imm n, { v with stack := pre }, hpop, ⟨hpm.1, ?_⟩,
          Or.inl ⟨n, rfl, ?_⟩⟩
        · intro r hr
          refine hpm.2 r ?_
          rw [hy, stackRegs_append]
          exact List.mem_append_left _ hr
        · intro r
          simp [countAll, hy, stackRegs_append, stackRegs]
    | Reg x =>
        have hxs : stackRegs v.stack = stackRegs pre ++ [x] := by
          rw [hy, stackRegs_append]
          rfl
        refine ⟨[], .Reg x, { v with stack := pre }, hpop, ⟨hpm.1, ?_⟩,
          Or.inr ⟨x, rfl, ?_, ?_, ?_, ?_⟩⟩
        · intro r hr
          refine hpm.2 r ?_
          rw [hxs]
          exact List.mem_append_left _ hr
        · exact hpm.2 x (by rw [hxs]; simp)
        · have hx1 : List.count x [x] = 1 := by simp
          simp only [countAll, hxs, List.count_append, hx1]
          omega
        · have hx1 : List.count x [x] = 1 := by simp
          simp only [countAll, hxs, List.count_append, hx1]
          omega
        · intro r hr
          have hx0 : List.count r [x] = 0 := by
            simp [List.count_cons, List.count_nil, hr]
          simp only [countAll, hxs, List.count_append, hx0]
          omega

/-- The `push_all` loop moves every referenced register into the free list:
counts are conserved. -/
theorem pushAllGo_count (stack : List StackValue) :
    ∀ (unused : List Register64) (r : Register64),
      ((pushAllGo stack unused).2).count r =
        unused.count r + (stackRegs stack).count r := by
  induction stack with
  | nil =>
      intro unused r
      simp [pushAllGo, stackRegs]
  | cons y rest ih =>
      intro unused r
      cases y with
      | Imm n =>
          simp only [pushAllGo]
          rw [ih unused r]
          simp [stackRegs]
      | Reg x =>
          simp only [pushAllGo]
          rw [ih (unused ++ [x]) r]
          simp only [List.count_append, stackRegs, List.filterMap_cons]
          simp [List.count_cons, List.count_nil]
          omega

/-- Membership conservation for `push_all`. -/
theorem pushAllGo_mem (stack : List StackValue) :
    ∀ (unused : List Register64) (r : Register64),
      r ∈ (pushAllGo stack unused).2 →
        r ∈ unused ∨ r ∈ stackRegs stack := by
  induction stack with
  | nil =>
      intro unused r h
      exact Or.inl (by simpa [pushAllGo] using h)
  | cons y rest ih =>
      intro unused r h
      cases y with
      | Imm n =>
          simp only [pushAllGo] at h
          rcases ih unused r h with h' | h'
          · exact Or.inl h'
          · exact Or.inr (by simpa [stackRegs] using h')
      | Reg x =>
          simp only [pushAllGo] at h
          rcases ih (unused ++ [x]) r h with h' | h'
          · rcases List.mem_append.1 h' with h'' | h''
            · exact Or.inl h''
            · refine Or.inr ?_
              simp only [stackRegs, List.filterMap_cons]
              simp at h''
              simp [h'']
          · refine Or.inr ?_
            simp only [stackRegs, List.filterMap_cons]
            exact List.mem_cons_of_mem _ h'

/-- `push_all` preserves the register-pool invariant (and empties the
deque). -/
theorem push_all_inv (v : VartualStack) (hinv : RegInv v) :
    RegInv (v.push_all).2 := by
  obtain ⟨⟨hm1, hm2⟩, hc⟩ := hinv
  refine ⟨⟨?_, ?_⟩, ?_⟩
  · intro r hr
    have hr' : r ∈ (pushAllGo v.stack v.unused_regs).2 := by
      simpa [VartualStack.push_all] using hr
    rcases pushAllGo_mem v.stack v.unused_regs r hr' with h | h
    · exact hm1 r h
    · exact hm2 r h
  · intro r hr
    simp [VartualStack.push_all, stackRegs] at hr
  · intro r hr
    have hcv := hc r hr
    show (pushAllGo v.stack v.unused_regs).2.count r +
      List.count r (stackRegs []) = 1
    rw [pushAllGo_count v.stack v.unused_regs r]
    have h0 : List.count r (stackRegs []) = 0 := rfl
    rw [h0]
    simp only [countAll] at hcv
    omega

/-- Re-pushing the taken register as a `Reg` entry restores the invariant. -/
theorem reginv_push_back_reg (x : Register64) (v : VartualStack)
    (h : RegInvExcept x v) :
    RegInv { v with stack := v.stack ++ [.Reg x] } := by
  obtain ⟨⟨hm1, hm2⟩, hxp, hc0, hc1⟩ := h
  refine ⟨⟨hm1, ?_⟩, ?_⟩
  · intro r hr
    rw [stackRegs_append] at hr
    rcases List.mem_append.1 hr with h' | h'
    · exact hm2 r h'
    · simp only [stackRegs, List.filterMap_cons] at h'
      simp at h'
      subst h'
      exact hxp
  · intro r hr
    by_cases hrx : r = x
    · subst hrx
      simp only [countAll] at hc0 ⊢
      rw [stackRegs_append]
      simp only [List.count_append]
      have : List.count r (stackRegs [StackValue.Reg r]) = 1 := by
        simp [stackRegs]
      rw [this]
      omega
    · have := hc1 r hr hrx
      simp only [countAll] at this ⊢
      rw [stackRegs_append]
      simp only [List.count_append]
      have : List.count r (stackRegs [StackValue.Reg x]) = 0 := by
        simp [stackRegs, List.count_cons, List.count_nil, hrx]
      rw [this]
      omega

/-- Returning the taken register to the free list restores the invariant. -/
theorem reginv_push_back_unused (x : Register64) (v : VartualStack)
    (h : RegInvExcept x v) :
    RegInv { v with unused_regs := v.unused_regs ++ [x] } := by
  obtain ⟨⟨hm1, hm2⟩, hxp, hc0, hc1⟩ := h
  refine ⟨⟨?_, hm2⟩, ?_⟩
  · intro r hr
    rcases List.mem_append.1 hr with h' | h'
    · exact hm1 r h'
    · simp at h'
      subst h'
      exact hxp
  · intro r hr
    by_cases hrx : r = x
    · subst hrx
      simp only [countAll] at hc0 ⊢
      simp only [List.count_append]
      have : List.count r [r] = 1 := by simp
      rw [this]
      omega
    · have := hc1 r hr hrx
      simp only [countAll] at this ⊢
      simp only [List.count_append]
      have : List.count r [x] = 0 := by
        simp [List.count_cons, List.count_nil, hrx]
      rw [this]
      omega

/-- Pushing the taken register at the deque front restores the invariant. -/
theorem reginv_push_front_reg (x : Register64) (v : VartualStack)
    (h : RegInvExcept x v) :
    RegInv { v with stack := .Reg x :: v.stack } := by
  obtain ⟨⟨hm1, hm2⟩, hxp, hc0, hc1⟩ := h
  refine ⟨⟨hm1, ?_⟩, ?_⟩
  · intro r hr
    simp only [stackRegs, List.filterMap_cons] at hr
    rcases List.mem_cons.1 hr with h' | h'
    · subst h'
      exact hxp
    · exact hm2 r h'
  · intro r hr
    by_cases hrx : r = x
    · subst hrx
      simp only [countAll] at hc0 ⊢
      simp only [stackRegs, List.filterMap_cons, List.count_cons_self]
      simp only [stackRegs] at hc0
      omega
    · have := hc1 r hr hrx
      simp only [countAll] at this ⊢
      simp only [stackRegs, List.filterMap_cons, List.count_cons_of_ne hrx]
      simp only [stackRegs] at this
      omega

/-- Pushing an immediate entry preserves the invariant. -/
theorem reginv_push_imm (n : Int) (v : VartualStack) (h : RegInv v) :
    RegInv { v with stack := v.stack ++ [.Imm n] } := by
  obtain ⟨⟨hm1, hm2⟩, hc⟩ := h
  have hsr : stackRegs (v.stack ++ [.Imm n]) = stackRegs v.stack := by
    rw [stackRegs_append]
    simp [stackRegs]
  refine ⟨⟨hm1, ?_⟩, ?_⟩
  · intro r hr
    rw [hsr] at hr
    exact hm2 r hr
  · intro r hr
    have := hc r hr
    simp only [countAll] at this ⊢
    rw [hsr]
    exact this

/-- Restoring two distinct taken registers (one as the result entry, one to
the free list) restores the invariant. -/
theorem reginv_restore2 (x y : Register64) (v : VartualStack)
    (h : RegInvExcept2 x y v) :
    RegInv { v with
      stack := v.stack ++ [.Reg x],
      unused_regs := v.unused_regs ++ [y] } := by
  obtain ⟨⟨hm1, hm2⟩, hxp, hyp, hxy, hcx, hcy, hc1⟩ := h
  have hky : RegInvExcept x { v with unused_regs := v.unused_regs ++ [y] } := by
    refine ⟨⟨?_, hm2⟩, hxp, ?_, ?_⟩
    · intro r hr
      rcases List.mem_append.1 hr with h' | h'
      · exact hm1 r h'
      · simp at h'
        subst h'
        exact hyp
    · simp only [countAll, List.count_append] at hcx ⊢
      have : List.count x [y] = 0 := by
        simp [List.count_cons, List.count_nil, hxy]
      rw [this]
      omega
    · intro r hr hrx
      by_cases hry : r = y
      · subst hry
        simp only [countAll, List.count_append] at hcy ⊢
        have : List.count r [r] = 1 := by simp
        rw [this]
        omega
      · have := hc1 r hr hrx hry
        simp only [countAll, List.count_append] at this ⊢
        have : List.count r [y] = 0 := by
          simp [List.count_cons, List.count_nil, hry]
        rw [this]
        omega
  exact reginv_push_back_reg x _ hky

/-- Under the invariant some pool register is always referenced. -/
theorem reginv_hex (v : VartualStack) (h : RegInv v) :
    ∃ r ∈ pool, 1 ≤ countAll r v := by
  refine ⟨.Rdi, by simp [pool], ?_⟩
  rw [h.2 .Rdi (by simp [pool])]

/-- Under the invariant `get_unused_reg` succeeds (the spill loop's panic is
unreachable) and frees a register no remaining deque entry references. -/
theorem get_unused_reg_inv (v : VartualStack) (h : RegInv v) :
    ∃ c x v', v.get_unused_reg = .ok (c, x, v') ∧ RegInvExcept x v' ∧
      x ∉ stackRegs v'.stack := by
  obtain ⟨c, x, v', hg, hxp, hpm', hc1, hc2, hc3⟩ :=
    get_unused_reg_specG v h.1 (reginv_hex v h)
  have hx0 : countAll x v' = 0 := by
    rw [hc2, h.2 x hxp]
  refine ⟨c, x, v', hg, ⟨hpm', hxp, hx0, ?_⟩, ?_⟩
  · intro r hr hrx
    rw [hc3 r hrx, h.2 r hr]
  · intro hmem
    have : 1 ≤ List.count x (stackRegs v'.stack) :=
      List.count_pos_iff.2 hmem
    simp only [countAll] at hx0
    omega

/-- Under the invariant `pop_value` succeeds; an `Imm` keeps the invariant,
a `Reg` leaves the invariant minus the returned register. -/
theorem pop_value_inv (v : VartualStack) (h : RegInv v) :
    ∃ c val v', v.pop_value = .ok (c, val, v') ∧
      ((∃ n, val = .Imm n ∧ RegInv v') ∨
       (∃ x, val = .Reg x ∧ RegInvExcept x v')) := by
  obtain ⟨c, val, v', hp, hpm', hdis⟩ :=
    pop_value_specG v h.1 (reginv_hex v h)
  refine ⟨c, val, v', hp, ?_⟩
  rcases hdis with ⟨n, hv, hcc⟩ | ⟨x, hv, hxp, hge, hc2, hc3⟩
  · refine Or.inl ⟨n, hv, hpm', ?_⟩
    intro r hr
    rw [hcc r, h.2 r hr]
  · refine Or.inr ⟨x, hv, hpm', hxp, ?_, ?_⟩
    · rw [hc2, h.2 x hxp]
    · intro r hr hrx
      rw [hc3 r hrx, h.2 r hr]

/-- A register distinct from a given one always exists in the pool. -/
theorem pool_other (y : Register64) :
    ∃ r ∈ pool, r ≠ y := by
  by_cases hy : y = Register64.Rdi
  · exact ⟨.Rsi, by simp [pool], by subst hy; decide⟩
  · exact ⟨.Rdi, by simp [pool], fun hc => hy hc.symm⟩

/-- `pop_value` from a state missing one register: an `Imm` keeps the
partial invariant, a `Reg` yields a second distinct missing register. -/
theorem pop_value_except (v : VartualStack) (y : Register64)
    (h : RegInvExcept y v) :
    ∃ c val v', v.pop_value = .ok (c, val, v') ∧
      ((∃ n, val = .Imm n ∧ RegInvExcept y v') ∨
       (∃ x, val = .Reg x ∧ x ≠ y ∧ RegInvExcept2 x y v')) := by
  obtain ⟨r₀, hr₀p, hr₀y⟩ := pool_other y
  have hex : ∃ r ∈ pool, 1 ≤ countAll r v := by
    refine ⟨r₀, hr₀p, ?_⟩
    rw [h.2.2.2 r₀ hr₀p hr₀y]
  obtain ⟨c, val, v', hp, hpm', hdis⟩ := pop_value_specG v h.1 hex
  refine ⟨c, val, v', hp, ?_⟩
  rcases hdis with ⟨n, hv, hcc⟩ | ⟨x, hv, hxp, hge, hc2, hc3⟩
  · refine Or.inl ⟨n, hv, hpm', h.2.1, ?_, ?_⟩
    · rw [hcc y, h.2.2.1]
    · intro r hr hry
      rw [hcc r, h.2.2.2 r hr hry]
  · have hxy : x ≠ y := by
      intro hc
      subst hc
      rw [h.2.2.1] at hge
      omega
    refine Or.inr ⟨x, hv, hxy, hpm', hxp, h.2.1, hxy, ?_, ?_, ?_⟩
    · rw [hc2, h.2.2.2 x hxp hxy]
    · rw [hc3 y (Ne.symm hxy), h.2.2.1]
    · intro r hr hrx hry
      rw [hc3 r hrx, h.2.2.2 r hr hry]

/-- The `End`-arm merge loop preserves the invariant and never panics. -/
theorem end_merge_loop_inv (k : Nat) : ∀ v, RegInv v →
    ∃ c v', end_merge_loop k v = .ok (c, v') ∧ RegInv v' := by
  induction k with
  | zero =>
      intro v hv
      exact ⟨[], v, rfl, hv⟩
  | succ k ih =>
      intro v hv
      obtain ⟨c, x, v₁, hg, hexc, _⟩ := get_unused_reg_inv v hv
      have hv₂ : RegInv { v₁ with stack := .Reg x :: v₁.stack } :=
        reginv_push_front_reg x v₁ hexc
      obtain ⟨c', v₃, hloop, hv₃⟩ := ih _ hv₂
      refine ⟨c ++ pop_data x ++ c', v₃, ?_, hv₃⟩
      simp only [end_merge_loop, hg, hloop, Except.bind, bind]

/-- One compilation step preserves the register-pool invariant, on the live
virtual stack and on every snapshot stored in an `If` frame. -/
theorem compile_op_state_inv (ctx : CompileCtx) (op : Operator)
    (s s' : CompState) (hs : StateInv s)
    (h : compile_op ctx op s = .ok s') : StateInv s' := by
  obtain ⟨hrv, hlv⟩ := hs
  cases op with
  | Call fi =>
      cases hft : ctx.store.get_func_type_from_func_index fi with
      | error e =>
          simp only [compile_op, hft, Except.bind, bind] at h
          cases h
      | ok ft =>
        simp only [compile_op, hft, Except.bind, bind] at h
        cases husz : usizeSub s.stack_count ft.params.length with
        | error e => simp only [husz] at h; cases h
        | ok sc =>
            simp only [husz] at h
            cases h
            exact ⟨push_all_inv s.vstack hrv, hlv⟩
  | LocalGet li =>
      obtain ⟨c, x, v₁, hg, hexc, _⟩ := get_unused_reg_inv s.vstack hrv
      simp only [compile_op, hg, Except.bind, bind] at h
      cases h
      exact ⟨reginv_push_back_reg x v₁ hexc, hlv⟩
  | I32Const n =>
      simp only [compile_op] at h
      cases h
      exact ⟨reginv_push_imm n s.vstack hrv, hlv⟩
  | I64Const n =>
      simp only [compile_op] at h
      cases h
      exact ⟨reginv_push_imm n s.vstack hrv, hlv⟩
  | I32Add =>
      obtain ⟨c₂, val2, v₁, hp1, hdis1⟩ := pop_value_inv s.vstack hrv
      rcases hdis1 with ⟨n2, hval2, hv₁⟩ | ⟨y, hval2, hexc1⟩
      · subst hval2
        obtain ⟨c₁, val1, v₂, hp2, hdis2⟩ := pop_value_inv v₁ hv₁
        simp only [compile_op, hp1, hp2, Except.bind, bind] at h
        cases husz : usizeSub s.stack_count 1 with
        | error e => simp only [husz] at h; cases h
        | ok sc =>
          simp only [husz] at h
          rcases hdis2 with ⟨n1, hval1, hv₂⟩ | ⟨x, hval1, hexc2⟩
          · subst hval1
            simp only at h
            cases hchk : i64chk (n1 + n2) with
            | error e => simp only [hchk] at h; cases h
            | ok w =>
                simp only [hchk] at h
                cases h
                exact ⟨reginv_push_imm w v₂ hv₂, hlv⟩
          · subst hval1
            simp only at h
            cases h
            exact ⟨reginv_push_back_reg x v₂ hexc2, hlv⟩
      · subst hval2
        obtain ⟨c₁, val1, v₂, hp2, hdis2⟩ := pop_value_except v₁ y hexc1
        simp only [compile_op, hp1, hp2, Except.bind, bind] at h
        cases husz : usizeSub s.stack_count 1 with
        | error e => simp only [husz] at h; cases h
        | ok sc =>
          simp only [husz] at h
          rcases hdis2 with ⟨n1, hval1, hexc⟩ | ⟨x, hval1, hxy, hexc2⟩
          · subst hval1
            simp only at h
            cases h
            exact ⟨reginv_push_back_reg y v₂ hexc, hlv⟩
          · subst hval1
            simp only at h
            cases h
            exact ⟨reginv_restore2 x y v₂ hexc2, hlv⟩
  | I64Add =>
      obtain ⟨c₂, val2, v₁, hp1, hdis1⟩ := pop_value_inv s.vstack hrv
      rcases hdis1 with ⟨n2, hval2, hv₁⟩ | ⟨y, hval2, hexc1⟩
      · subst hval2
        obtain ⟨c₁, val1, v₂, hp2, hdis2⟩ := pop_value_inv v₁ hv₁
        simp only [compile_op, hp1, hp2, Except.bind, bind] at h
        cases husz : usizeSub s.stack_count 1 with
        | error e => simp only [husz] at h; cases h
        | ok sc =>
          simp only [husz] at h
          rcases hdis2 with ⟨n1, hval1, hv₂⟩ | ⟨x, hval1, hexc2⟩
          · subst hval1
            simp only at h
            cases hchk : i64chk (n1 + n2) with
            | error e => simp only [hchk] at h; cases h
            | ok w =>
                simp only [hchk] at h
                cases h
                exact ⟨reginv_push_imm w v₂ hv₂, hlv⟩
          · subst hval1
            simp only at h
            cases h
            exact ⟨reginv_push_back_reg x v₂ hexc2, hlv⟩
      · subst hval2
        obtain ⟨c₁, val1, v₂, hp2, hdis2⟩ := pop_value_except v₁ y hexc1
        simp only [compile_op, hp1, hp2, Except.bind, bind] at h
        cases husz : usizeSub s.stack_count 1 with
        | error e => simp only [husz] at h; cases h
        | ok sc =>
          simp only [husz] at h
          rcases hdis2 with ⟨n1, hval1, hexc⟩ | ⟨x, hval1, hxy, hexc2⟩
          · subst hval1
            simp only at h
            cases h
            exact ⟨reginv_push_back_reg y v₂ hexc, hlv⟩
          · subst hval1
            simp only at h
            cases h
            exact ⟨reginv_restore2 x y v₂ hexc2, hlv⟩
  | I32Sub =>
      obtain ⟨c₂, val2, v₁, hp1, hdis1⟩ := pop_value_inv s.vstack hrv
      rcases hdis1 with ⟨n2, hval2, hv₁⟩ | ⟨y, hval2, hexc1⟩
      · subst hval2
        obtain ⟨c₁, val1, v₂, hp2, hdis2⟩ := pop_value_inv v₁ hv₁
        simp only [compile_op, hp1, hp2, Except.bind, bind] at h
        cases husz : usizeSub s.stack_count 1 with
        | error e => simp only [husz] at h; cases h
        | ok sc =>
          simp only [husz] at h
          rcases hdis2 with ⟨n1, hval1, hv₂⟩ | ⟨x, hval1, hexc2⟩
          · subst hval1
            simp only at h
            cases hchk : i64chk (n1 - n2) with
            | error e => simp only [hchk] at h; cases h
            | ok w =>
                simp only [hchk] at h
                cases h
                exact ⟨reginv_push_imm w v₂ hv₂, hlv⟩
          · subst hval1
            simp only at h
            cases h
            exact ⟨reginv_push_back_reg x v₂ hexc2, hlv⟩
      · subst hval2
        obtain ⟨c₁, val1, v₂, hp2, hdis2⟩ := pop_value_except v₁ y hexc1
        simp only [compile_op, hp1, hp2, Except.bind, bind] at h
        cases husz : usizeSub s.stack_count 1 with
        | error e => simp only [husz] at h; cases h
        | ok sc =>
          simp only [husz] at h
          rcases hdis2 with ⟨n1, hval1, hexc⟩ | ⟨x, hval1, hxy, hexc2⟩
          · subst hval1
            simp only at h
            cases h
            exact ⟨reginv_push_back_reg y v₂ hexc, hlv⟩
          · subst hval1
            simp only at h
            cases h
            exact ⟨reginv_restore2 x y v₂ hexc2, hlv⟩
  | I64Sub =>
      obtain ⟨c₂, val2, v₁, hp1, hdis1⟩ := pop_value_inv s.vstack hrv
      rcases hdis1 with ⟨n2, hval2, hv₁⟩ | ⟨y, hval2, hexc1⟩
      · subst hval2
        obtain ⟨c₁, val1, v₂, hp2, hdis2⟩ := pop_value_inv v₁ hv₁
        simp only [compile_op, hp1, hp2, Except.bind, bind] at h
        cases husz : usizeSub s.stack_count 1 with
        | error e => simp only [husz] at h; cases h
        | ok sc =>
          simp only [husz] at h
          rcases hdis2 with ⟨n1, hval1, hv₂⟩ | ⟨x, hval1, hexc2⟩
          · subst hval1
            simp only at h
            cases hchk : i64chk (n1 - n2) with
            | error e => simp only [hchk] at h; cases h
            | ok w =>
                simp only [hchk] at h
                cases h
                exact ⟨reginv_push_imm w v₂ hv₂, hlv⟩
          · subst hval1
            simp only at h
            cases h
            exact ⟨reginv_push_back_reg x v₂ hexc2, hlv⟩
      · subst hval2
        obtain ⟨c₁, val1, v₂, hp2, hdis2⟩ := pop_value_except v₁ y hexc1
        simp only [compile_op, hp1, hp2, Except.bind, bind] at h
        cases husz : usizeSub s.stack_count 1 with
        | error e => simp only [husz] at h; cases h
        | ok sc =>
          simp only [husz] at h
          rcases hdis2 with ⟨n1, hval1, hexc⟩ | ⟨x, hval1, hxy, hexc2⟩
          · subst hval1
            simp only at h
            cases h
            exact ⟨reginv_push_back_reg y v₂ hexc, hlv⟩
          · subst hval1
            simp only at h
            cases h
            exact ⟨reginv_restore2 x y v₂ hexc2, hlv⟩
  | I32Eq =>
      obtain ⟨c₂, val2, v₁, hp1, hdis1⟩ := pop_value_inv s.vstack hrv
      rcases hdis1 with ⟨n2, hval2, hv₁⟩ | ⟨y, hval2, hexc1⟩
      · subst hval2
        obtain ⟨c₁, val1, v₂, hp2, hdis2⟩ := pop_value_inv v₁ hv₁
        simp only [compile_op, hp1, hp2, Except.bind, bind] at h
        cases husz : usizeSub s.stack_count 1 with
        | error e => simp only [husz] at h; cases h
        | ok sc =>
          simp only [husz] at h
          rcases hdis2 with ⟨n1, hval1, hv₂⟩ | ⟨x, hval1, hexc2⟩
          · subst hval1
            simp only at h
            cases h
            exact ⟨reginv_push_imm _ v₂ hv₂, hlv⟩
          · subst hval1
            simp only at h
            cases h
            exact ⟨reginv_push_back_reg x v₂ hexc2, hlv⟩
      · subst hval2
        obtain ⟨c₁, val1, v₂, hp2, hdis2⟩ := pop_value_except v₁ y hexc1
        simp only [compile_op, hp1, hp2, Except.bind, bind] at h
        cases husz : usizeSub s.stack_count 1 with
        | error e => simp only [husz] at h; cases h
        | ok sc =>
          simp only [husz] at h
          rcases hdis2 with ⟨n1, hval1, hexc⟩ | ⟨x, hval1, hxy, hexc2⟩
          · subst hval1
            simp only at h
            cases h
            exact ⟨reginv_push_back_reg y v₂ hexc, hlv⟩
          · subst hval1
            simp only at h
            cases h
            exact ⟨reginv_restore2 x y v₂ hexc2, hlv⟩
  | I64Eq =>
      obtain ⟨c₂, val2, v₁, hp1, hdis1⟩ := pop_value_inv s.vstack hrv
      rcases hdis1 with ⟨n2, hval2, hv₁⟩ | ⟨y, hval2, hexc1⟩
      · subst hval2
        obtain ⟨c₁, val1, v₂, hp2, hdis2⟩ := pop_value_inv v₁ hv₁
        simp only [compile_op, hp1, hp2, Except.bind, bind] at h
        cases husz : usizeSub s.stack_count 1 with
        | error e => simp only [husz] at h; cases h
        | ok sc =>
          simp only [husz] at h
          rcases hdis2 with ⟨n1, hval1, hv₂⟩ | ⟨x, hval1, hexc2⟩
          · subst hval1
            simp only at h
            cases h
            exact ⟨reginv_push_imm _ v₂ hv₂, hlv⟩
          · subst hval1
            simp only at h
            cases h
            exact ⟨reginv_push_back_reg x v₂ hexc2, hlv⟩
      · subst hval2
        obtain ⟨c₁, val1, v₂, hp2, hdis2⟩ := pop_value_except v₁ y hexc1
        simp only [compile_op, hp1, hp2, Except.bind, bind] at h
        cases husz : usizeSub s.stack_count 1 with
        | error e => simp only [husz] at h; cases h
        | ok sc =>
          simp only [husz] at h
          rcases hdis2 with ⟨n1, hval1, hexc⟩ | ⟨x, hval1, hxy, hexc2⟩
          · subst hval1
            simp only at h
            cases h
            exact ⟨reginv_push_back_reg y v₂ hexc, hlv⟩
          · subst hval1
            simp only at h
            cases h
            exact ⟨reginv_restore2 x y v₂ hexc2, hlv⟩
  | If blockty =>
      obtain ⟨c, val, v₁, hp, hdis⟩ := pop_value_inv s.vstack hrv
      rcases hdis with ⟨n, hval, hv₁⟩ | ⟨x, hval, hexc⟩
      · subst hval
        simp only [compile_op, hp, Except.bind, bind] at h
        cases hbp : block_params_len ctx.store blockty with
        | error e => simp only [hbp] at h; cases h
        | ok pl =>
          simp only [hbp] at h
          cases husz1 : usizeSub s.stack_count 1 with
          | error e => simp only [husz1] at h; cases h
          | ok sc =>
            simp only [husz1] at h
            cases husz2 : usizeSub sc pl with
            | error e => simp only [husz2] at h; cases h
            | ok chk =>
              simp only [husz2] at h
              cases h
              refine ⟨hv₁, ?_⟩
              intro l hl sites chk' bt' vs heq
              rcases List.mem_cons.1 hl with hl' | hl'
              · subst hl'
                cases heq
                exact hv₁
              · exact hlv l hl' sites chk' bt' vs heq
      · subst hval
        simp only [compile_op, hp, Except.bind, bind] at h
        cases hbp : block_params_len ctx.store blockty with
        | error e => simp only [hbp] at h; cases h
        | ok pl =>
          simp only [hbp] at h
          cases husz1 : usizeSub s.stack_count 1 with
          | error e => simp only [husz1] at h; cases h
          | ok sc =>
            simp only [husz1] at h
            cases husz2 : usizeSub sc pl with
            | error e => simp only [husz2] at h; cases h
            | ok chk =>
              simp only [husz2] at h
              cases h
              have hv₂ : RegInv { v₁ with
                  unused_regs := v₁.unused_regs ++ [x] } :=
                reginv_push_back_unused x v₁ hexc
              refine ⟨hv₂, ?_⟩
              intro l hl sites chk' bt' vs heq
              rcases List.mem_cons.1 hl with hl' | hl'
              · subst hl'
                cases heq
                exact hv₂
              · exact hlv l hl' sites chk' bt' vs heq
  | Else =>
      cases hl : s.labels with
      | nil =>
          simp only [compile_op, hl] at h
          cases h
      | cons lab rest =>
        rw [hl] at hlv
        cases lab with
        | FuncEnd ar =>
            simp only [compile_op, hl] at h
            cases h
        | LoopStart a b c =>
            simp only [compile_op, hl] at h
            cases h
        | End sites chk bt evs =>
          cases evs with
          | none =>
              simp only [compile_op, hl, Except.bind, bind] at h
              cases h
          | some vs =>
            have hvs : RegInv vs :=
              hlv _ (List.mem_cons_self _ _) sites chk bt vs rfl
            cases sites with
            | nil =>
                simp only [compile_op, hl, Except.bind, bind,
                  List.nil_append] at h
                cases husz : usizeSub
                    (s.buf ++ instrsBytes ((s.vstack.push_all).1 ++
                      [.JmpI 0])).length
                    (s.buf ++ instrsBytes ((s.vstack.push_all).1 ++
                      [.JmpI 0])).length with
                | error e => simp only [husz] at h; cases h
                | ok rel =>
                  simp only [husz] at h
                  cases h
                  refine ⟨hvs, ?_⟩
                  intro l hl' sites' chk' bt' vs' heq
                  rcases List.mem_cons.1 hl' with hl'' | hl''
                  · subst hl''
                    cases heq
                  · exact hlv l (List.mem_cons_of_mem _ hl'') sites' chk'
                      bt' vs' heq
            | cons a as =>
                simp only [compile_op, hl, Except.bind, bind,
                  List.cons_append] at h
                cases husz : usizeSub
                    (s.buf ++ instrsBytes ((s.vstack.push_all).1 ++
                      [.JmpI 0])).length a with
                | error e => simp only [husz] at h; cases h
                | ok rel =>
                  simp only [husz] at h
                  cases h
                  refine ⟨hvs, ?_⟩
                  intro l hl' sites' chk' bt' vs' heq
                  rcases List.mem_cons.1 hl' with hl'' | hl''
                  · subst hl''
                    cases heq
                  · exact hlv l (List.mem_cons_of_mem _ hl'') sites' chk'
                      bt' vs' heq
  | End =>
      cases hl : s.labels with
      | nil =>
          simp only [compile_op, hl] at h
          cases h
      | cons lab rest =>
        rw [hl] at hlv
        cases lab with
        | LoopStart a b c =>
            simp only [compile_op, hl] at h
            cases h
        | FuncEnd ar =>
            simp only [compile_op, hl, Except.bind, bind] at h
            cases hpr : patch_reserved s.buf.length ar s.buf with
            | error e => simp only [hpr] at h; cases h
            | ok b₂ =>
              simp only [hpr] at h
              cases h
              refine ⟨hrv, ?_⟩
              intro l hl' sites' chk' bt' vs' heq
              exact hlv l (List.mem_cons_of_mem _ hl') sites' chk' bt' vs' heq
        | End sites chk bt evs =>
          simp only [compile_op, hl, Except.bind, bind] at h
          cases hpr : patch_reserved
              (s.buf ++ instrsBytes (s.vstack.push_all).1).length sites
              (s.buf ++ instrsBytes (s.vstack.push_all).1) with
          | error e => simp only [hpr] at h; cases h
          | ok b₂ =>
            simp only [hpr] at h
            cases hres : block_result_len ctx.store bt with
            | error e => simp only [hres] at h; cases h
            | ok n =>
              simp only [hres] at h
              cases hd : usizeSub s.stack_count chk with
              | error e => simp only [hd] at h; cases h
              | ok diff =>
                simp only [hd] at h
                have hpa : RegInv (s.vstack.push_all).2 :=
                  push_all_inv s.vstack hrv
                have htail : labelsInv rest := by
                  intro l hl' sites' chk' bt' vs' heq
                  exact hlv l (List.mem_cons_of_mem _ hl') sites' chk' bt'
                    vs' heq
                by_cases hnd : n = diff
                · simp only [hnd, if_pos rfl] at h
                  cases h
                  exact ⟨hpa, htail⟩
                · rw [if_neg hnd] at h
                  cases hml : end_merge_loop (min n 7)
                      (s.vstack.push_all).2 with
                  | error e => simp only [hml] at h; cases h
                  | ok mcv =>
                    simp only [hml] at h
                    cases h
                    obtain ⟨c', v', hml', hv'⟩ :=
                      end_merge_loop_inv (min n 7) (s.vstack.push_all).2 hpa
                    rw [hml'] at hml
                    cases hml
                    exact ⟨hv', htail⟩
  | Nop =>
      simp only [compile_op] at h
      cases h
  | I32Mul =>
      simp only [compile_op] at h
      cases h

/-- The initial virtual stack satisfies the register-pool invariant. -/
theorem reginv_new : RegInv VartualStack.new :=
  ⟨⟨fun _ hr => hr, fun r hr => by simp [stackRegs, VartualStack.new] at hr⟩,
    by
      intro r hr
      fin_cases hr <;> decide⟩

/-- C10: the register-pool invariant.  The initial virtual stack satisfies
it; under it every pool register is referenced at most once (free or by one
`Reg` entry, never both, never twice); `get_unused_reg` then always
succeeds — the spill loop's `expect("stack is empty")` panic is
unreachable — and returns a register no remaining deque entry references;
and every compilation step preserves the invariant (also inside stored
`If`-frame snapshots), so it holds before and after each operator. -/
theorem vartual_stack_register_invariant :
    RegInv VartualStack.new ∧
      (∀ v, RegInv v → ∀ r ∈ pool,
        v.unused_regs.count r + (stackRegs v.stack).count r ≤ 1) ∧
      (∀ v, RegInv v → ∃ c x v', v.get_unused_reg = .ok (c, x, v') ∧
        x ∉ stackRegs v'.stack) ∧
      (∀ ctx op s s', StateInv s → compile_op ctx op s = .ok s' →
        StateInv s') := by
  refine ⟨reginv_new, ?_, ?_, ?_⟩
  · intro v hv r hr
    have := hv.2 r hr
    simp only [countAll] at this
    omega
  · intro v hv
    obtain ⟨c, x, v', hg, _, hnm⟩ := get_unused_reg_inv v hv
    exact ⟨c, x, v', hg, hnm⟩
  · intro ctx op s s' hs h
    exact compile_op_state_inv ctx op s s' hs h

/-- Witness for C10: from the initial pool, `get_unused_reg` succeeds with
an unreferenced register, and one step (`i64.const 5`) preserves the
invariant. -/
theorem vartual_stack_register_invariant_witness :
    (∃ c x v', VartualStack.new.get_unused_reg = .ok (c, x, v') ∧
      x ∉ stackRegs v'.stack) ∧
    StateInv ⟨[], 1,
      { VartualStack.new with
        stack := VartualStack.new.stack ++ [.Imm 5] }, [.FuncEnd []]⟩ :=
  ⟨vartual_stack_register_invariant.2.2.1 VartualStack.new reginv_new,
   vartual_stack_register_invariant.2.2.2 ⟨⟨[], [], []⟩, 0, 0, 0⟩
     (.I64Const 5) ⟨[], 0, VartualStack.new, [.FuncEnd []]⟩
     ⟨[], 1,
       { VartualStack.new with
         stack := VartualStack.new.stack ++ [.Imm 5] }, [.FuncEnd []]⟩
     ⟨reginv_new, by
       intro l hl sites chk bt vs heq
       simp only [List.mem_singleton] at hl
       subst hl
       cases heq⟩
     rfl⟩
